import Mathlib

/-!
Verification development for the 02562-rendering WebGPU path tracer.

Shallow embedding conventions:
* WGSL `f32` values are modelled as exact rationals (`ℚ`); decimal literals in
  the shaders are read as the decimal rationals they denote.
* Division is `ℚ` division, which is total with `x / 0 = 0`.  The shaders rely
  on IEEE infinities only in division-by-zero corner cases; every theorem that
  depends on a quotient carries a hypothesis making the divisor nonzero.
* Calls to the opaque GPU math library (`sqrt`, `exp`, `acos`, `sin`, `cos`)
  are modelled by a bundle of function parameters (`Fns`), so the embedded
  code is executable and the branch structure matches the source exactly.
* `u32` values are modelled as `ℕ`; wrapping arithmetic is written with
  explicit `% 2 ^ 32` (resp. `% 2 ^ 31` for the masked LCG state).
* Storage arrays are modelled as `List`s read through `List.getD`, matching
  WGSL's defaulting behaviour for robust-buffer-access reads.
-/

/-- Vec3 models the WGSL `vec3f` type with exact rational components. -/
structure Vec3 where
  x : ℚ
  y : ℚ
  z : ℚ
deriving DecidableEq

namespace Vec3

/-- Componentwise addition, as WGSL `+` on `vec3f`. -/
protected def add (a b : Vec3) : Vec3 := ⟨a.x + b.x, a.y + b.y, a.z + b.z⟩

/-- Componentwise subtraction, as WGSL `-` on `vec3f`. -/
protected def sub (a b : Vec3) : Vec3 := ⟨a.x - b.x, a.y - b.y, a.z - b.z⟩

/-- Componentwise negation, as WGSL unary `-` on `vec3f`. -/
protected def neg (a : Vec3) : Vec3 := ⟨-a.x, -a.y, -a.z⟩

/-- Componentwise multiplication, as WGSL `*` on two `vec3f` values. -/
protected def mul (a b : Vec3) : Vec3 := ⟨a.x * b.x, a.y * b.y, a.z * b.z⟩

/-- Scalar multiplication, as WGSL `*` between an `f32` and a `vec3f`. -/
protected def smul (c : ℚ) (a : Vec3) : Vec3 := ⟨c * a.x, c * a.y, c * a.z⟩

instance : Add Vec3 := ⟨Vec3.add⟩
instance : Sub Vec3 := ⟨Vec3.sub⟩
instance : Neg Vec3 := ⟨Vec3.neg⟩
instance : Mul Vec3 := ⟨Vec3.mul⟩
instance : SMul ℚ Vec3 := ⟨Vec3.smul⟩

/-- Zero vector, the WGSL `vec3f(0.0)`. -/
protected def zero : Vec3 := ⟨0, 0, 0⟩

instance : Zero Vec3 := ⟨Vec3.zero⟩

/-- Dot product of two vectors, the WGSL `dot`. -/
def dot (a b : Vec3) : ℚ := a.x * b.x + a.y * b.y + a.z * b.z

/-- Cross product of two vectors, the WGSL `cross`. -/
def cross (a b : Vec3) : Vec3 :=
  ⟨a.y * b.z - a.z * b.y, a.z * b.x - a.x * b.z, a.x * b.y - a.y * b.x⟩

/-- Dynamic component access, the WGSL `v[i]` for `i : u32` in bounds. -/
def comp (a : Vec3) (i : ℕ) : ℚ :=
  if i = 0 then a.x else if i = 1 then a.y else if i = 2 then a.z else 0

/-- Componentwise application of a scalar function (used for `exp` on a
`vec3f` argument). -/
def map (f : ℚ → ℚ) (a : Vec3) : Vec3 := ⟨f a.x, f a.y, f a.z⟩

end Vec3

@[simp] theorem Vec3.add_x (a b : Vec3) : (a + b).x = a.x + b.x := rfl

@[simp] theorem Vec3.add_y (a b : Vec3) : (a + b).y = a.y + b.y := rfl

@[simp] theorem Vec3.add_z (a b : Vec3) : (a + b).z = a.z + b.z := rfl

@[simp] theorem Vec3.sub_x (a b : Vec3) : (a - b).x = a.x - b.x := rfl

@[simp] theorem Vec3.sub_y (a b : Vec3) : (a - b).y = a.y - b.y := rfl

@[simp] theorem Vec3.sub_z (a b : Vec3) : (a - b).z = a.z - b.z := rfl

@[simp] theorem Vec3.neg_x (a : Vec3) : (-a).x = -a.x := rfl

@[simp] theorem Vec3.neg_y (a : Vec3) : (-a).y = -a.y := rfl

@[simp] theorem Vec3.neg_z (a : Vec3) : (-a).z = -a.z := rfl

@[simp] theorem Vec3.mul_x (a b : Vec3) : (a * b).x = a.x * b.x := rfl

@[simp] theorem Vec3.mul_y (a b : Vec3) : (a * b).y = a.y * b.y := rfl

@[simp] theorem Vec3.mul_z (a b : Vec3) : (a * b).z = a.z * b.z := rfl

@[simp] theorem Vec3.smul_x (c : ℚ) (a : Vec3) : (c • a).x = c * a.x := rfl

@[simp] theorem Vec3.smul_y (c : ℚ) (a : Vec3) : (c • a).y = c * a.y := rfl

@[simp] theorem Vec3.smul_z (c : ℚ) (a : Vec3) : (c • a).z = c * a.z := rfl

@[simp] theorem Vec3.zero_x : (0 : Vec3).x = 0 := rfl

@[simp] theorem Vec3.zero_y : (0 : Vec3).y = 0 := rfl

@[simp] theorem Vec3.zero_z : (0 : Vec3).z = 0 := rfl

theorem Vec3.ext_iff {a b : Vec3} : a = b ↔ a.x = b.x ∧ a.y = b.y ∧ a.z = b.z := by
  constructor
  · rintro rfl; exact ⟨rfl, rfl, rfl⟩
  · rintro ⟨h1, h2, h3⟩; cases a; cases b; simp_all

instance : AddCommGroup Vec3 where
  add_assoc a b c := by refine Vec3.ext_iff.mpr ⟨?_, ?_, ?_⟩ <;> simp <;> ring
  zero_add a := by refine Vec3.ext_iff.mpr ⟨?_, ?_, ?_⟩ <;> simp
  add_zero a := by refine Vec3.ext_iff.mpr ⟨?_, ?_, ?_⟩ <;> simp
  add_comm a b := by refine Vec3.ext_iff.mpr ⟨?_, ?_, ?_⟩ <;> simp <;> ring
  neg_add_cancel a := by refine Vec3.ext_iff.mpr ⟨?_, ?_, ?_⟩ <;> simp
  nsmul := nsmulRec
  zsmul := zsmulRec
  sub_eq_add_neg a b := by refine Vec3.ext_iff.mpr ⟨?_, ?_, ?_⟩ <;> simp <;> ring

instance : Module ℚ Vec3 where
  one_smul a := by refine Vec3.ext_iff.mpr ⟨?_, ?_, ?_⟩ <;> simp
  mul_smul c d a := by refine Vec3.ext_iff.mpr ⟨?_, ?_, ?_⟩ <;> simp <;> ring
  smul_zero c := by refine Vec3.ext_iff.mpr ⟨?_, ?_, ?_⟩ <;> simp
  smul_add c a b := by refine Vec3.ext_iff.mpr ⟨?_, ?_, ?_⟩ <;> simp <;> ring
  add_smul c d a := by refine Vec3.ext_iff.mpr ⟨?_, ?_, ?_⟩ <;> simp <;> ring
  zero_smul a := by refine Vec3.ext_iff.mpr ⟨?_, ?_, ?_⟩ <;> simp

/-- Reflection of `d` about `n`, the WGSL `reflect` (assumes `n` normalized):
`d - 2 * dot(d, n) * n`. -/
def reflect (d n : Vec3) : Vec3 := d - (2 * Vec3.dot d n) • n

/-- Fns bundles the opaque GPU math library calls used by the shaders, so the
embedding stays executable while matching the source call sites. -/
structure Fns where
  sqrt : ℚ → ℚ
  exp : ℚ → ℚ
  acos : ℚ → ℚ
  sin : ℚ → ℚ
  cos : ℚ → ℚ

/-- Normalization `v / length(v)`, the WGSL `normalize` builtin, with the
library square root supplied through `fns`. -/
def normalize3 (fns : Fns) (v : Vec3) : Vec3 := (1 / fns.sqrt (Vec3.dot v v)) • v

/-- The WGSL `sign` function on `f32`. -/
def sgn (q : ℚ) : ℚ := if 0 < q then 1 else if q < 0 then -1 else 0

/-- The WGSL `max(q, 0.0)` clamp used on cosines. -/
def max0 (q : ℚ) : ℚ := max q 0

/-- Ray models the week08 `Ray` struct (origin, direction, valid interval). -/
structure Ray where
  origin : Vec3
  direction : Vec3
  tmin : ℚ
  tmax : ℚ
deriving DecidableEq

/-- One step of the MCG-31 generator from `shader.wgsl`:
`*prev = (LCG_A * *prev) & 0x7FFFFFFF` with `LCG_A = 1977654935`, where the
`u32` product wraps.  Masking the wrapped product with `0x7FFFFFFF` equals
reducing the full product modulo `2^31`. -/
def mcg31 (prev : ℕ) : ℕ := (1977654935 * prev) % 2147483648

/-- The shader's `rnd`: advances the MCG state and returns the new state
divided by `2^31` as an `f32` in `[0, 1)`.  Returns the sample together with
the advanced state. -/
def rnd (prev : ℕ) : ℚ × ℕ := ((mcg31 prev : ℚ) / 2147483648, mcg31 prev)

namespace W8

/-- HitInfo models the `HitInfo` struct of `week08/part3/shader.wgsl`. -/
structure HitInfo where
  has_hit : Bool
  distance : ℚ
  position : Vec3
  normal : Vec3
  diffuse : Vec3
  emission : Vec3
  specular : Vec3
  ior1_over_ior2 : ℚ
  shininess : ℚ
  shader : ℕ
  triangle_idx : ℕ
  emit : Bool
  throughput : Vec3
  extinction : Vec3
deriving DecidableEq

/-- The shader's `default_hitinfo()` constant. -/
def default_hitinfo : HitInfo :=
  ⟨false, 0, 0, 0, 0, 0, 0, 0, 0, 0, 0, true, ⟨1, 1, 1⟩, 0⟩

/-- Material models the week08 `Material` struct; only the `rgb` parts of the
two `vec4f` fields are ever read. -/
structure Material where
  emission : Vec3
  diffuse : Vec3
deriving DecidableEq

/-- VertexInfo models the week08 `VertexInfo` struct. -/
structure VertexInfo where
  position : Vec3
  normal : Vec3
deriving DecidableEq

/-- Ctx bundles the bind-group state read by `week08/part3/shader.wgsl`:
vertex data, faces (as `vec4u`: three vertex indices and a material index),
materials, the scene box, the BSP buffers and the light index list, plus the
`triangle_shader` uniform. -/
structure Ctx where
  vInfo : List VertexInfo
  meshFaces : List (ℕ × ℕ × ℕ × ℕ)
  materials : List Material
  aabbMin : Vec3
  aabbMax : Vec3
  treeIds : List ℕ
  bspTree : List (ℕ × ℕ × ℕ × ℕ)
  bspPlanes : List ℚ
  lightIndices : List ℕ
  triangle_shader : ℕ

/-- Default vertex record for out-of-bounds reads. -/
def vdefault : VertexInfo := ⟨0, 0⟩

/-- Position of vertex `i`, reading `vInfo[i].position`. -/
def vpos (ctx : Ctx) (i : ℕ) : Vec3 := (ctx.vInfo.getD i vdefault).position

/-- Normal of vertex `i`, reading `vInfo[i].normal`. -/
def vnrm (ctx : Ctx) (i : ℕ) : Vec3 := (ctx.vInfo.getD i vdefault).normal

/-- Face `i`, reading `meshFaces[i]`. -/
def face (ctx : Ctx) (i : ℕ) : ℕ × ℕ × ℕ × ℕ := ctx.meshFaces.getD i (0, 0, 0, 0)

end W8

/-- Componentwise division, as WGSL `/` on two `vec3f` values. -/
protected def Vec3.divv (a b : Vec3) : Vec3 := ⟨a.x / b.x, a.y / b.y, a.z / b.z⟩

instance : Div Vec3 := ⟨Vec3.divv⟩

/-- Length of a vector, the WGSL `length` builtin. -/
def lengthF (fns : Fns) (v : Vec3) : ℚ := fns.sqrt (Vec3.dot v v)

/-- Pointwise update of a function modelling a WGSL `var<private>` array. -/
def upd {α : Type} (f : ℕ → α) (k : ℕ) (v : α) : ℕ → α :=
  fun n => if n = k then v else f n

/-- The shader constant `Pi = 3.1415926535`. -/
def Pi : ℚ := 31415926535 / 10000000000

/-- The half-b coefficient `dot(oc, r.direction)` with `oc = r.origin - c`,
shared by every sphere intersection routine in the repository. -/
def sphereB (r : Ray) (c : Vec3) : ℚ := Vec3.dot (r.origin - c) r.direction

/-- The quadratic discriminant `b * b - (dot(oc, oc) - radius * radius)` of
the sphere intersection routines. -/
def sphereDisc (r : Ray) (c : Vec3) (radius : ℚ) : ℚ :=
  sphereB r c * sphereB r c - (Vec3.dot (r.origin - c) (r.origin - c) - radius * radius)

namespace W8

/-- The shader's `intersect_min_max`: slab test of the ray against the scene
box with a `1e-3` margin; on success narrows the ray interval, on failure
returns the ray unchanged. -/
def intersect_min_max (ctx : Ctx) (r : Ray) : Ray × Bool :=
  let p1 := (ctx.aabbMin - r.origin) / r.direction
  let p2 := (ctx.aabbMax - r.origin) / r.direction
  let t_min := max (max (min p1.x p2.x) (min p1.y p2.y)) (min p1.z p2.z) - 1 / 1000
  let t_max := min (min (max p1.x p2.x) (max p1.y p2.y)) (max p1.z p2.z) + 1 / 1000
  if t_min > t_max ∨ t_min > r.tmax ∨ t_max < r.tmin then (r, false)
  else ({ r with tmin := max t_min r.tmin, tmax := min t_max r.tmax }, true)

/-- Geometric normal of mesh triangle `i`: the source's
`n_tri = cross(e0, e1)` with `e0 = v1 - v0`, `e1 = v2 - v0` read through
`meshFaces[i]` and `vInfo`. -/
def triN (ctx : Ctx) (i : ℕ) : Vec3 :=
  Vec3.cross (vpos ctx (face ctx i).2.1 - vpos ctx (face ctx i).1)
    (vpos ctx (face ctx i).2.2.1 - vpos ctx (face ctx i).1)

/-- The source's determinant `q = dot(r.direction, n_tri)`. -/
def triQ (ctx : Ctx) (D : Vec3) (i : ℕ) : ℚ := Vec3.dot D (triN ctx i)

/-- The source's plane parameter `t = dot(a, n_tri) / q` with
`a = v0 - r.origin`. -/
def triT (ctx : Ctx) (O D : Vec3) (i : ℕ) : ℚ :=
  Vec3.dot (vpos ctx (face ctx i).1 - O) (triN ctx i) / triQ ctx D i

/-- The source's barycentric `beta = dot(b_p, e1) / q` with
`b_p = cross(a, r.direction)`. -/
def triBeta (ctx : Ctx) (O D : Vec3) (i : ℕ) : ℚ :=
  Vec3.dot (Vec3.cross (vpos ctx (face ctx i).1 - O) D)
    (vpos ctx (face ctx i).2.2.1 - vpos ctx (face ctx i).1) / triQ ctx D i

/-- The source's barycentric `gamma = -dot(b_p, e0) / q`. -/
def triGamma (ctx : Ctx) (O D : Vec3) (i : ℕ) : ℚ :=
  -(Vec3.dot (Vec3.cross (vpos ctx (face ctx i).1 - O) D)
      (vpos ctx (face ctx i).2.1 - vpos ctx (face ctx i).1)) / triQ ctx D i

/-- The interpolated shading normal written by the week08 triangle test. -/
def triNrm (ctx : Ctx) (fns : Fns) (O D : Vec3) (i : ℕ) : Vec3 :=
  normalize3 fns
    ((1 - triBeta ctx O D i - triGamma ctx O D i) • vnrm ctx (face ctx i).1 +
      triBeta ctx O D i • vnrm ctx (face ctx i).2.1 +
      triGamma ctx O D i • vnrm ctx (face ctx i).2.2.1)

/-- The triangle test of `week08/part3/shader.wgsl` (textually identical in
the week07 shader found as `src/unnamed/part_002`): Möller–Trumbore with edge
basis, determinant epsilon `1e-8`, window test against `r.tmin`/`r.tmax`, and
barycentric rejection; on success writes `has_hit`, `position`, `distance`
and the interpolated shading normal.  The source's intermediate `let`
bindings are the named helpers above. -/
def intersect_triangle (ctx : Ctx) (fns : Fns) (r : Ray) (hit : HitInfo) (i : ℕ) :
    HitInfo × Bool :=
  let q := triQ ctx r.direction i
  if |q| < 1 / 100000000 then (hit, false) else
  let t := triT ctx r.origin r.direction i
  if t < r.tmin ∨ t > r.tmax then (hit, false) else
  let beta := triBeta ctx r.origin r.direction i
  let gamma := triGamma ctx r.origin r.direction i
  if beta < 0 ∨ gamma < 0 ∨ beta + gamma > 1 then (hit, false) else
  ({ hit with
      has_hit := true
      position := r.origin + t • r.direction
      distance := t
      normal := triNrm ctx fns r.origin r.direction i }, true)

/-- The leaf loop of `intersect_trimesh`: tests `count` permuted triangle ids
starting at position `id` in `treeIds`, narrowing `r.tmax` to each recorded
hit and tracking the leaf-local `found` flag. -/
def leafLoop (ctx : Ctx) (fns : Fns) :
    ℕ → ℕ → Ray → HitInfo → Bool → HitInfo × Ray × Bool
  | 0, _, r, hit, found => (hit, r, found)
  | n + 1, pos, r, hit, found =>
    let idx := ctx.treeIds.getD pos 0
    match intersect_triangle ctx fns r hit idx with
    | (hit1, b) =>
      if b then
        leafLoop ctx fns n (pos + 1) { r with tmax := hit1.distance }
          { hit1 with triangle_idx := idx } true
      else leafLoop ctx fns n (pos + 1) r hit1 found

/-- The near child of an internal node for the given ray: the `z` (lower)
child when the split-axis direction component is nonnegative, the `w`
(upper) child otherwise — the source's `near`/`far` select. -/
def nearNode (ctx : Ctx) (node : ℕ) (r : Ray) : ℕ :=
  if 0 ≤ r.direction.comp ((ctx.bspTree.getD node (0, 0, 0, 0)).1 % 4) then
    (ctx.bspTree.getD node (0, 0, 0, 0)).2.2.1
  else (ctx.bspTree.getD node (0, 0, 0, 0)).2.2.2

/-- The far child of an internal node for the given ray: the other one. -/
def farNode (ctx : Ctx) (node : ℕ) (r : Ray) : ℕ :=
  if 0 ≤ r.direction.comp ((ctx.bspTree.getD node (0, 0, 0, 0)).1 % 4) then
    (ctx.bspTree.getD node (0, 0, 0, 0)).2.2.2
  else (ctx.bspTree.getD node (0, 0, 0, 0)).2.2.1

/-- The guarded split denominator: the axis direction component, replaced by
`1.0e-8` when its magnitude falls below `1.0e-8`. -/
def denomSel (ctx : Ctx) (node : ℕ) (r : Ray) : ℚ :=
  if |r.direction.comp ((ctx.bspTree.getD node (0, 0, 0, 0)).1 % 4)| <
      1 / 100000000 then 1 / 100000000
  else r.direction.comp ((ctx.bspTree.getD node (0, 0, 0, 0)).1 % 4)

/-- The split parameter `t_split` computed by the traversal at an internal
node. -/
def tsel (ctx : Ctx) (node : ℕ) (r : Ray) : ℚ :=
  (ctx.bspPlanes.getD node 0 -
      r.origin.comp ((ctx.bspTree.getD node (0, 0, 0, 0)).1 % 4)) /
    denomSel ctx node r

/-- The iterative BSP traversal loop of `intersect_trimesh`, with the loop
counter `i`, current `node`, stack level and the two `var<private>` stack
arrays made explicit.  `fuel` bounds the recursion; the canonical entry point
supplies more fuel than any execution of the WGSL loop can consume, and fuel
exhaustion mirrors the loop falling off its iteration bound (returns
no-hit). -/
def trimeshGo (ctx : Ctx) (fns : Fns) :
    ℕ → ℕ → ℕ → ℕ → (ℕ → ℕ × ℕ) → (ℕ → ℚ × ℚ) → Ray → HitInfo →
    HitInfo × Ray × Bool
  | 0, _, _, _, _, _, r, hit => (hit, r, false)
  | fuel + 1, i, node, lvl, bn, br, r, hit =>
    if 20 < i then (hit, r, false) else
    if (ctx.bspTree.getD node (0, 0, 0, 0)).1 % 4 = 3 then
      match leafLoop ctx fns ((ctx.bspTree.getD node (0, 0, 0, 0)).1 / 4)
          (ctx.bspTree.getD node (0, 0, 0, 0)).2.1 r hit false with
      | (hit1, r1, found) =>
        if found then (hit1, r1, true)
        else if lvl = 0 then (hit1, r1, false)
        else
          trimeshGo ctx fns fuel ((bn (lvl - 1)).1 + 1) (bn (lvl - 1)).2 (lvl - 1)
            bn br { r1 with tmin := (br (lvl - 1)).1, tmax := (br (lvl - 1)).2 } hit1
    else
      if tsel ctx node r ≥ r.tmax then
        trimeshGo ctx fns fuel (i + 1) (nearNode ctx node r) lvl bn br r hit
      else if tsel ctx node r ≤ r.tmin then
        trimeshGo ctx fns fuel (i + 1) (farNode ctx node r) lvl bn br r hit
      else
        trimeshGo ctx fns fuel (i + 1) (nearNode ctx node r) (lvl + 1)
          (upd bn lvl (i, farNode ctx node r))
          (upd br lvl (tsel ctx node r, r.tmax))
          { r with tmax := tsel ctx node r } hit

/-- The shader's `intersect_trimesh`: runs the traversal loop from the root
with zeroed stack arrays.  The fuel constant exceeds the iteration count of
any execution of the bounded WGSL loop. -/
def intersect_trimesh (ctx : Ctx) (fns : Fns) (r : Ray) (hit : HitInfo) :
    HitInfo × Ray × Bool :=
  trimeshGo ctx fns 536870912 0 0 0 (fun _ => (0, 0)) (fun _ => (0, 0)) r hit

/-- The root selection of the week08 `intersect_sphere`: the near root
`-b - sqrt(disc)`, replaced by the far root `-b + sqrt(disc)` when the near
root falls outside the ray interval. -/
def sphereT (fns : Fns) (r : Ray) (center : Vec3) (radius : ℚ) : ℚ :=
  if -sphereB r center - fns.sqrt (sphereDisc r center radius) < r.tmin ∨
      -sphereB r center - fns.sqrt (sphereDisc r center radius) > r.tmax then
    -sphereB r center + fns.sqrt (sphereDisc r center radius)
  else -sphereB r center - fns.sqrt (sphereDisc r center radius)

/-- The week08 `intersect_sphere`: quadratic solve with discriminant epsilon
`1e-8` over the shared helpers `sphereB`/`sphereDisc`, window test of the
selected root `sphereT`, then hit recording. -/
def intersect_sphere (fns : Fns) (r : Ray) (hit : HitInfo) (center : Vec3)
    (radius : ℚ) : HitInfo × Bool :=
  if sphereDisc r center radius < 1 / 100000000 then (hit, false) else
  if sphereT fns r center radius < r.tmin ∨ sphereT fns r center radius > r.tmax then
    (hit, false)
  else
  ({ hit with
      has_hit := true
      distance := sphereT fns r center radius
      position := r.origin + sphereT fns r center radius • r.direction
      normal := normalize3 fns
        (r.origin + sphereT fns r center radius • r.direction - center) }, true)

/-- The week08 `intersect_scene`: AABB cull, the two hard-coded spheres (a
mirror sphere and a tinted glass sphere), then the BSP-accelerated triangle
mesh; each accepted primitive narrows `r.tmax` and stamps its material
fields.  Returns the mutated ray, the hit record and `hit.has_hit`. -/
def intersect_scene (ctx : Ctx) (fns : Fns) (r : Ray) (hit : HitInfo) :
    Ray × HitInfo × Bool :=
  match intersect_min_max ctx r with
  | (r0, ok) =>
    if ¬ ok then (r0, hit, false) else
    match intersect_sphere fns r0 hit ⟨420, 90, 370⟩ 90 with
    | (h1, b1) =>
      let hit1 := if b1 then { h1 with shader := 3 } else h1
      let r1 := if b1 then { r0 with tmax := h1.distance } else r0
      match intersect_sphere fns r1 hit1 ⟨130, 90, 250⟩ 90 with
      | (h2, b2) =>
        let hit2 := if b2 then
            { h2 with
                ior1_over_ior2 := 1 / (3 / 2)
                shader := 6
                extinction := ⟨1 / 100, 1, 0⟩ }
          else h2
        let r2 := if b2 then { r1 with tmax := h2.distance } else r1
        match intersect_trimesh ctx fns r2 hit2 with
        | (h3, r3, b3) =>
          let hit3 := if b3 then
              let mat := ctx.materials.getD (face ctx h3.triangle_idx).2.2.2 ⟨0, 0⟩
              { h3 with
                  diffuse := mat.diffuse
                  emission := mat.emission
                  shader := ctx.triangle_shader }
            else h3
          let r4 := if b3 then { r3 with tmax := h3.distance } else r3
          (r4, hit3, hit3.has_hit)

/-- The shader's `fresnel_R`. -/
def fresnel_R (costhetai costhetat ior_i_over_t : ℚ) : ℚ :=
  let r_per := (ior_i_over_t * costhetai - costhetat) / (ior_i_over_t * costhetai + costhetat)
  let r_par := (costhetai - ior_i_over_t * costhetat) / (costhetai + ior_i_over_t * costhetat)
  (1 / 2) * (r_per * r_per + r_par * r_par)

/-- Light models the week08 `Light` struct. -/
structure Light where
  L_i : Vec3
  w_i : Vec3
  dist : ℚ
deriving DecidableEq

/-- The shader's `sample_area_light`: picks one emissive triangle uniformly
via `lightIndices[u32(rnd * numLights)]`, samples a point on it with the
square-root warp, and weights the emitted radiance by the facing cosine, the
triangle area (`length(cross(e0, e1)) * 0.5`) and the number of lights.
Returns the light sample together with the advanced PRNG state. -/
def sample_area_light (ctx : Ctx) (fns : Fns) (pos : Vec3) (t : ℕ) : Light × ℕ :=
  let numLights := ctx.lightIndices.length
  if numLights = 0 then (⟨0, 0, 0⟩, t) else
  match rnd t with
  | (xi0, t1) =>
    let l_idx := ctx.lightIndices.getD (Nat.floor (xi0 * numLights)) 0
    let f := face ctx l_idx
    let v0 := vpos ctx f.1
    let v1 := vpos ctx f.2.1
    let v2 := vpos ctx f.2.2.1
    match rnd t1 with
    | (r1, t2) =>
      match rnd t2 with
      | (r2, t3) =>
        let alpha := 1 - fns.sqrt r1
        let beta := (1 - r2) * fns.sqrt r1
        let gamma := r2 * fns.sqrt r1
        let light_pos := alpha • v0 + beta • v1 + gamma • v2
        let n_light := normalize3 fns
          (alpha • vnrm ctx f.1 + beta • vnrm ctx f.2.1 + gamma • vnrm ctx f.2.2.1)
        let w_i := normalize3 fns (light_pos - pos)
        let dist := lengthF fns (light_pos - pos)
        let L_i := (max0 (Vec3.dot (-w_i) n_light) *
            (lengthF fns (Vec3.cross (v1 - v0) (v2 - v0)) * (1 / 2)) * numLights) •
          (ctx.materials.getD f.2.2.2 ⟨0, 0⟩).emission
        (⟨L_i, w_i, dist⟩, t3)

/-- The shader's `rotate_to_normal`. -/
def rotate_to_normal (n v : Vec3) : Vec3 :=
  let s := sgn (n.z + 1 / 10000000000000000)
  let a := -1 / (1 + |n.z|)
  let b := n.x * n.y * a
  v.x • (⟨1 + n.x * n.x * a, b, -s * n.x⟩ : Vec3) +
    v.y • (⟨s * b, s * (1 + n.y * n.y * a), -n.y⟩ : Vec3) + v.z • n

/-- The shader's `sample_cosine_weighted_direction`: draws two fresh samples
and rotates the cosine-warped hemisphere direction to the shading normal. -/
def sample_cosine_weighted_direction (fns : Fns) (n : Vec3) (t : ℕ) : Vec3 × ℕ :=
  match rnd t with
  | (r1, t1) =>
    match rnd t1 with
    | (r2, t2) =>
      let theta := fns.acos (fns.sqrt (1 - r1))
      let phi := 2 * Pi * r2
      (rotate_to_normal n
        ⟨fns.sin theta * fns.cos phi, fns.sin theta * fns.sin phi, fns.cos theta⟩, t2)

/-- The week08 `lambertian`: one area-light sample, one shadow ray with
`tmax = light.dist - 1e-3`, the shadowed direct term
`(diffuse / Pi) * L_i * max(dot(n, w_i), 0)`, then Russian roulette on the
average channel of the diffuse-attenuated throughput; survivors divide the
throughput by the survival probability and continue with a cosine-weighted
bounce.  Returns the mutated ray and hit, the PRNG state and the radiance. -/
def lambertian (ctx : Ctx) (fns : Fns) (r : Ray) (hit : HitInfo) (t : ℕ) :
    Ray × HitInfo × ℕ × Vec3 :=
  match sample_area_light ctx fns hit.position t with
  | (light, t1) =>
    let shadow_ray : Ray := ⟨hit.position, light.w_i, 1 / 1000, light.dist - 1 / 1000⟩
    match intersect_scene ctx fns shadow_ray default_hitinfo with
    | (_, _, shadowHit) =>
      let V := ¬ shadowHit
      let direct := if V then
          (max0 (Vec3.dot hit.normal light.w_i)) • ((1 / Pi) • hit.diffuse * light.L_i)
        else 0
      let tp := hit.throughput * hit.diffuse
      let Pd := (tp.x + tp.y + tp.z) / 3
      match rnd t1 with
      | (xi, t2) =>
        if xi < Pd then
          match sample_cosine_weighted_direction fns hit.normal t2 with
          | (dir, t3) =>
            (⟨hit.position, dir, 1 / 1000, 1000000⟩,
              { hit with throughput := (1 / Pd) • tp, emit := false, has_hit := false },
              t3, direct + hit.emission)
        else (r, { hit with throughput := tp }, t2, direct + hit.emission)

/-- The week08 `mirror`: deterministic reflection about the shading normal
with re-based ray interval; emits no radiance and always continues. -/
def mirror (r : Ray) (hit : HitInfo) : Ray × HitInfo × Vec3 :=
  (⟨hit.position, reflect r.direction hit.normal, 1 / 1000, 1000000⟩,
    { hit with emit := true, has_hit := false }, 0)

/-- The second half of the week08 `transparent` (everything after the
exit-side normal flip and absorption block): the refraction-discriminant
test, the `mirror` degradation on total internal reflection, and otherwise
the single Fresnel-weighted stochastic choice between the reflected and the
Snell-refracted continuation ray.  `eta`, `n` and `costhetai` are the
possibly flipped values, `hitA` the possibly absorption-updated record. -/
def transparentTail (fns : Fns) (r : Ray) (eta : ℚ) (n : Vec3) (costhetai : ℚ)
    (hitA : HitInfo) (tA : ℕ) : Ray × HitInfo × ℕ × Vec3 :=
  let sin2thetat := eta * eta * (1 - costhetai * costhetai)
  if sin2thetat > 1 then
    match mirror r hitA with
    | (r', h', c) => (r', h', tA, c)
  else
    let costhetat := fns.sqrt (1 - sin2thetat)
    let R := fresnel_R costhetai costhetat eta
    let hitB := { hitA with has_hit := false }
    match rnd tA with
    | (xi, tB) =>
      if xi < R then
        (⟨hitA.position, reflect r.direction hitA.normal, 1 / 1000, 1000000⟩, hitB, tB, 0)
      else
        (⟨hitA.position,
            normalize3 fns (eta • (costhetai • n - -r.direction) - costhetat • n),
            1 / 1000, 1000000⟩, hitB, tB, 0)

/-- The week08 `transparent`: flips the normal and the index ratio when the
ray exits the volume, applying Bouguer absorption `exp(-extinction * dist)`
with a Russian-roulette continuation decision there; then hands over to
`transparentTail` for the discriminant test and the reflect/refract
choice. -/
def transparent (fns : Fns) (r : Ray) (hit : HitInfo) (t : ℕ) :
    Ray × HitInfo × ℕ × Vec3 :=
  let hit0 := { hit with emit := true }
  let eta0 := hit.ior1_over_ior2
  let n0 := hit.normal
  let c0 := Vec3.dot (-r.direction) n0
  if c0 < 0 then
    let Tr := Vec3.map fns.exp ((-hit.distance) • hit.extinction)
    let prob := (Tr.x + Tr.y + Tr.z) / 3
    match rnd t with
    | (xi, t1) =>
      if xi < prob then
        transparentTail fns r (1 / eta0) (-n0) (-c0)
          { hit0 with throughput := hit0.throughput * (1 / prob) • Tr } t1
      else (r, hit0, t1, 0)
  else transparentTail fns r eta0 n0 c0 hit0 t

/-- The per-pixel accumulation step of the week08 `main_fs` (lines 316-318,
identically in `src/unnamed/part_002`): the previous frame's displayed
average is re-weighted by the frame index, the fresh sample is added, and the
total is divided by `frame + 1`. -/
def accumulate (res prev : Vec3) (frame : ℕ) : Vec3 :=
  (1 / ((frame + 1 : ℕ) : ℚ)) • (res + ((frame : ℕ) : ℚ) • prev)

/-- Iterated accumulation: the buffer contents after `n` frames that all
produce the sample `c`, starting from arbitrary stale buffer contents
`init` (frame 0 reads the stale value but weights it by zero). -/
def accumIter (c init : Vec3) : ℕ → Vec3
  | 0 => init
  | n + 1 => accumulate c (accumIter c init n) n

end W8

namespace W6

/-- HitInfo models the `HitInfo` struct of `week06/part1/shader.wgsl`. -/
structure HitInfo where
  has_hit : Bool
  distance : ℚ
  position : Vec3
  normal : Vec3
  diffuse : Vec3
  emission : Vec3
  specular : Vec3
  ior1_over_ior2 : ℚ
  shininess : ℚ
  shader : ℕ
deriving DecidableEq

/-- The week06 `default_hitinfo()` constant. -/
def default_hitinfo : HitInfo := ⟨false, 0, 0, 0, 0, 0, 0, 0, 0, 0⟩

/-- Ctx6 bundles the bind-group state read by `week06/part1/shader.wgsl`:
separate position and normal arrays, faces as `vec3u`, a per-triangle
material index array, the material list and the `triangle_shader` uniform. -/
structure Ctx6 where
  vPositions : List Vec3
  meshNormals : List Vec3
  meshFaces : List (ℕ × ℕ × ℕ)
  materials : List W8.Material
  matIndices : List ℕ
  triangle_shader : ℕ

/-- The week06 `intersect_triangle`: Möller–Trumbore with determinant epsilon
`0.0001` and the barycentric rejection written as `(1 - beta - gamma) < 0`. -/
def intersect_triangle (ctx : Ctx6) (fns : Fns) (r : Ray) (hit : HitInfo) (i : ℕ) :
    HitInfo × Bool :=
  let f := ctx.meshFaces.getD i (0, 0, 0)
  let v0 := ctx.vPositions.getD f.1 0
  let v1 := ctx.vPositions.getD f.2.1 0
  let v2 := ctx.vPositions.getD f.2.2 0
  let n0 := ctx.meshNormals.getD f.1 0
  let n1 := ctx.meshNormals.getD f.2.1 0
  let n2 := ctx.meshNormals.getD f.2.2 0
  let e0 := v1 - v0
  let e1 := v2 - v0
  let n := Vec3.cross e0 e1
  let q := Vec3.dot r.direction n
  if |q| < 1 / 10000 then (hit, false) else
  let a := v0 - r.origin
  let t := Vec3.dot a n / q
  if t < r.tmin ∨ t > r.tmax then (hit, false) else
  let beta := Vec3.dot (Vec3.cross a r.direction) e1 / q
  let gamma := -(Vec3.dot (Vec3.cross a r.direction) e0) / q
  if beta < 0 ∨ gamma < 0 ∨ (1 - beta - gamma) < 0 then (hit, false) else
  ({ hit with
      has_hit := true
      position := r.origin + t • r.direction
      distance := t
      normal := normalize3 fns ((1 - beta - gamma) • n0 + beta • n1 + gamma • n2) },
    true)

/-- The loop body of the week06 `intersect_scene`, iterating triangle index
`i` upward with `rem` triangles left to test; accepted hits stamp the
triangle's material fields and narrow `r.tmax`. -/
def sceneLoop (ctx : Ctx6) (fns : Fns) : ℕ → ℕ → Ray → HitInfo → Ray × HitInfo
  | 0, _, r, hit => (r, hit)
  | rem + 1, i, r, hit =>
    match intersect_triangle ctx fns r hit i with
    | (hit1, b) =>
      if b then
        let mat := ctx.materials.getD (ctx.matIndices.getD i 0) ⟨0, 0⟩
        sceneLoop ctx fns rem (i + 1) { r with tmax := hit1.distance }
          { hit1 with
              diffuse := mat.diffuse
              emission := mat.emission
              shader := ctx.triangle_shader }
      else sceneLoop ctx fns rem (i + 1) r hit1

/-- The week06 `intersect_scene`: brute-force linear scan of every triangle
in the mesh.  Returns the mutated ray, the hit record and `hit.has_hit`. -/
def intersect_scene (ctx : Ctx6) (fns : Fns) (r : Ray) (hit : HitInfo) :
    Ray × HitInfo × Bool :=
  match sceneLoop ctx fns ctx.meshFaces.length 0 r hit with
  | (r1, hit1) => (r1, hit1, hit1.has_hit)

end W6

namespace P0

/-- HitInfo models the `HitInfo` struct of the ray-tracing lab shader whose
source ships as the third document of `src/unnamed/part_000` (the analytic
plane/triangle/sphere scene with `hit_update`). -/
structure HitInfo where
  has_hit : Bool
  dist : ℚ
  position : Vec3
  normal : Vec3
  rho_a : Vec3
  rho_d : Vec3
  rho_s : Vec3
  shininess : ℚ
  ior : ℚ
  shader : ℕ
  continue_ray : Bool
deriving DecidableEq

/-- The shader's `hit_update` helper: records the candidate hit only when
`t >= r.tmin && t <= r.tmax && t < hit.dist` — the comparison against the
current best distance is strict. -/
def hit_update (fns : Fns) (r : Ray) (hit : HitInfo) (t : ℚ) (p n ra rd rs : Vec3)
    (sh ior : ℚ) (id : ℕ) : HitInfo :=
  if t ≥ r.tmin ∧ t ≤ r.tmax ∧ t < hit.dist then
    { has_hit := true
      dist := t
      position := p
      normal := normalize3 fns n
      rho_a := ra
      rho_d := rd
      rho_s := rs
      shininess := sh
      ior := ior
      shader := id
      continue_ray := false }
  else hit

/-- The root selection of the `intersect_sphere` in the `hit_update` shader
of `src/unnamed/part_000`: the near root, replaced by the far root only when
the near root is below `r.tmin`. -/
def sphereT0 (fns : Fns) (r : Ray) (c : Vec3) (radius : ℚ) : ℚ :=
  if -sphereB r c - fns.sqrt (sphereDisc r c radius) < r.tmin then
    -sphereB r c + fns.sqrt (sphereDisc r c radius)
  else -sphereB r c - fns.sqrt (sphereDisc r c radius)

/-- The `intersect_sphere` of the same shader: on a nonnegative discriminant
selects the root via `sphereT0` and delegates the window and best-distance
test to `hit_update`. -/
def intersect_sphere (fns : Fns) (r : Ray) (hit : HitInfo) (c : Vec3) (radius : ℚ)
    (ra rd rs : Vec3) (sh ior : ℚ) (id : ℕ) : HitInfo :=
  if sphereDisc r c radius ≥ 0 then
    hit_update fns r hit (sphereT0 fns r c radius)
      (r.origin + sphereT0 fns r c radius • r.direction)
      (r.origin + sphereT0 fns r c radius • r.direction - c) ra rd rs sh ior id
  else hit

end P0

namespace W8

/-- Fold of the week08 triangle test over an explicit list of triangle ids,
with the same narrowing discipline as the BSP leaf loop and the week06 scan
loop: accepted hits shrink `r.tmax` to the recorded distance and set the
`triangle_idx`. -/
def foldTri (ctx : Ctx) (fns : Fns) : List ℕ → Ray → HitInfo → Bool →
    HitInfo × Ray × Bool
  | [], r, hit, found => (hit, r, found)
  | idx :: rest, r, hit, found =>
    match intersect_triangle ctx fns r hit idx with
    | (hit1, b) =>
      if b then
        foldTri ctx fns rest { r with tmax := hit1.distance }
          { hit1 with triangle_idx := idx } true
      else foldTri ctx fns rest r hit1 found

/-- Specification-side brute force for the refinement claim of spec §8: the
week06 `intersect_scene` loop shape (a linear scan over every triangle of
the mesh, narrowing `tmax` on each accepted hit) run over the week08 mesh
representation with the week08 triangle test, so that the traversal under
test and the reference scan use the identical primitive test. -/
def linear_scan (ctx : Ctx) (fns : Fns) (r : Ray) (hit : HitInfo) :
    HitInfo × Ray × Bool :=
  foldTri ctx fns (List.range ctx.meshFaces.length) r hit false

end W8

namespace Lens

/-- Modelled from the spec: the final project's thin-lens camera
(`project/part01`) is not among the provided sources, so the camera state of
spec §4.3 is modelled from the spec's words: eye point, orthonormal basis
`(b1, b2, v)`, the camera constant, the aperture diameter and the focal
distance. -/
structure Cam where
  eye : Vec3
  b1 : Vec3
  b2 : Vec3
  v : Vec3
  camConstant : ℚ
  aperture : ℚ
  focalDistance : ℚ

/-- Modelled from the spec: rejection sampling of a point on a disk of the
given radius (§4.3 allows "concentric-disk or rejection sampling"); draws
points of the square `[-1, 1]^2` until one lands in the unit disk, then
scales by the radius.  The fuel bounds the rejection loop; on exhaustion the
disk centre is returned. -/
def sampleDisk (radius : ℚ) : ℕ → ℕ → (ℚ × ℚ) × ℕ
  | 0, t => ((0, 0), t)
  | fuel + 1, t =>
    match rnd t with
    | (u1, t1) =>
      match rnd t1 with
      | (u2, t2) =>
        let x := 2 * u1 - 1
        let y := 2 * u2 - 1
        if x * x + y * y ≤ 1 then ((radius * x, radius * y), t2)
        else sampleDisk radius fuel t2

/-- Modelled from the spec: the pinhole direction of §4.3, built from the
image-plane coordinates, the orthonormal basis and the camera constant. -/
def pinholeDir (fns : Fns) (cam : Cam) (ip : ℚ × ℚ) : Vec3 :=
  normalize3 fns (ip.1 • cam.b1 + ip.2 • cam.b2 + cam.camConstant • cam.v)

/-- Modelled from the spec: `thinLensRay(pixel, rng)` of §4.3 — samples a
lens point on the disk of radius `aperture / 2` around the eye in the lens
plane spanned by `b1`/`b2`, computes the sharp-focus point at distance
`focalDistance` along the pinhole ray, and returns the ray from the lens
point toward that focus point. -/
def thinLensRay (fns : Fns) (cam : Cam) (ip : ℚ × ℚ) (t : ℕ) : Ray × ℕ :=
  match sampleDisk (cam.aperture / 2) 65536 t with
  | ((lx, ly), t1) =>
    let lensPoint := cam.eye + lx • cam.b1 + ly • cam.b2
    let focus := cam.eye + cam.focalDistance • pinholeDir fns cam ip
    (⟨lensPoint, normalize3 fns (focus - lensPoint), 1 / 1000, 1000000000⟩, t1)

end Lens

namespace W8

/-- Window-free acceptance predicate of the week08 triangle test: determinant
at least `1e-8` in magnitude and barycentric coordinates in the valid
range. -/
def triGeomOK (ctx : Ctx) (O D : Vec3) (i : ℕ) : Prop :=
  ¬ |triQ ctx D i| < 1 / 100000000 ∧ ¬ triBeta ctx O D i < 0 ∧
    ¬ triGamma ctx O D i < 0 ∧ ¬ triBeta ctx O D i + triGamma ctx O D i > 1

instance (ctx : Ctx) (O D : Vec3) (i : ℕ) : Decidable (triGeomOK ctx O D i) := by
  unfold triGeomOK; infer_instance

/-- Characterization of the week08 triangle test: it accepts exactly the
triangles passing the geometric predicate whose plane parameter lies in the
ray window, and then records distance, position and shading normal. -/
theorem intersect_triangle_spec (ctx : Ctx) (fns : Fns) (r : Ray) (hit : HitInfo)
    (i : ℕ) :
    intersect_triangle ctx fns r hit i =
      if triGeomOK ctx r.origin r.direction i ∧
          ¬ (triT ctx r.origin r.direction i < r.tmin ∨
            triT ctx r.origin r.direction i > r.tmax) then
        ({ hit with
            has_hit := true
            position := r.origin + triT ctx r.origin r.direction i • r.direction
            distance := triT ctx r.origin r.direction i
            normal := triNrm ctx fns r.origin r.direction i }, true)
      else (hit, false) := by
  by_cases hc : triGeomOK ctx r.origin r.direction i ∧
      ¬ (triT ctx r.origin r.direction i < r.tmin ∨
        triT ctx r.origin r.direction i > r.tmax)
  · obtain ⟨⟨hq, hb, hg, hbg⟩, hw⟩ := hc
    rw [if_pos ⟨⟨hq, hb, hg, hbg⟩, hw⟩]
    unfold intersect_triangle
    rw [if_neg hq, if_neg hw, if_neg (by tauto)]
  · rw [if_neg hc]
    unfold intersect_triangle
    by_cases h1 : |triQ ctx r.direction i| < 1 / 100000000
    · rw [if_pos h1]
    · rw [if_neg h1]
      by_cases h2 : triT ctx r.origin r.direction i < r.tmin ∨
          triT ctx r.origin r.direction i > r.tmax
      · rw [if_pos h2]
      · rw [if_neg h2]
        have h3 : triBeta ctx r.origin r.direction i < 0 ∨
            triGamma ctx r.origin r.direction i < 0 ∨
            triBeta ctx r.origin r.direction i + triGamma ctx r.origin r.direction i > 1 := by
          by_contra h3
          exact hc ⟨⟨h1, (not_or.mp h3).1, (not_or.mp (not_or.mp h3).2).1,
            (not_or.mp (not_or.mp h3).2).2⟩, h2⟩
        rw [if_pos h3]

end W8

/-- Constant-zero math-library bundle used to evaluate branch-insensitive
concrete instances. -/
def fns0 : Fns := ⟨fun _ => 0, fun _ => 0, fun _ => 0, fun _ => 0, fun _ => 0⟩

/-- C2: the per-pixel accumulator computes
`displayColor = (sampleColor + previousDisplayedAverage * frameIndex) / (frameIndex + 1)`
(this is the definition `W8.accumulate`, read off the `main_fs` lines), so
feeding the same sample `c` for frames `0 .. n-1` yields exactly `c` after
every frame `n ≥ 1`, the stale frame-0 buffer contents being excluded by the
zero weight. -/
theorem C2_accumulator_constant_fixed (c init : Vec3) (n : ℕ) (hn : 1 ≤ n) :
    W8.accumIter c init n = c := by
  induction n with
  | zero => omega
  | succ k ih =>
    rcases Nat.eq_zero_or_pos k with hk | hk
    · subst hk
      show W8.accumulate c (W8.accumIter c init 0) 0 = c
      show W8.accumulate c init 0 = c
      unfold W8.accumulate
      norm_num
    · show W8.accumulate c (W8.accumIter c init k) k = c
      rw [ih hk]
      unfold W8.accumulate
      have hne : ((k + 1 : ℕ) : ℚ) ≠ 0 := Nat.cast_ne_zero.mpr (by omega)
      have hc : c + ((k : ℕ) : ℚ) • c = ((k + 1 : ℕ) : ℚ) • c := by
        push_cast
        rw [add_smul, one_smul, add_comm]
      rw [hc, smul_smul, one_div, inv_mul_cancel₀ hne, one_smul]

attribute [local semireducible] Rat.add Rat.mul Rat.inv Rat.sub in
/-- Witness for C2 at a concrete color, stale buffer and frame count. -/
theorem C2_witness :
    1 ≤ 3 ∧ W8.accumIter ⟨1/2, 1/3, 1/4⟩ ⟨7, 8, 9⟩ 3 = ⟨1/2, 1/3, 1/4⟩ :=
  ⟨by decide, C2_accumulator_constant_fixed ⟨1/2, 1/3, 1/4⟩ ⟨7, 8, 9⟩ 3 (by decide)⟩

/-- C8: the week08/week07 triangle test reports near-parallel rays
(`|q| < 1e-8`) and out-of-range barycentric coordinates (`beta < 0`,
`gamma < 0` or `beta + gamma > 1`) as plain no-intersection: it returns
`false` and leaves every field of the hit record unchanged. -/
theorem C8_degenerate_is_no_hit (ctx : W8.Ctx) (fns : Fns) (r : Ray)
    (hit : W8.HitInfo) (i : ℕ)
    (h : |W8.triQ ctx r.direction i| < 1 / 100000000 ∨
      W8.triBeta ctx r.origin r.direction i < 0 ∨
      W8.triGamma ctx r.origin r.direction i < 0 ∨
      W8.triBeta ctx r.origin r.direction i + W8.triGamma ctx r.origin r.direction i > 1) :
    W8.intersect_triangle ctx fns r hit i = (hit, false) := by
  rw [W8.intersect_triangle_spec, if_neg]
  rintro ⟨⟨hq, hb, hg, hbg⟩, _⟩
  rcases h with h | h | h | h
  exacts [hq h, hb h, hg h, hbg h]

/-- Degenerate context for the C8 witness: empty buffers, so the face read
defaults and the determinant vanishes. -/
def ctxEmpty : W8.Ctx := ⟨[], [], [], 0, 0, [], [], [], [], 1⟩

attribute [local semireducible] Rat.add Rat.mul Rat.inv Rat.sub in
/-- Witness for C8 on a concrete degenerate triangle read. -/
theorem C8_witness :
    |W8.triQ ctxEmpty ⟨0, 0, 1⟩ 0| < 1 / 100000000 ∧
      W8.intersect_triangle ctxEmpty fns0 ⟨0, ⟨0, 0, 1⟩, 0, 10⟩ W8.default_hitinfo 0 =
        (W8.default_hitinfo, false) :=
  ⟨by decide, C8_degenerate_is_no_hit ctxEmpty fns0 ⟨0, ⟨0, 0, 1⟩, 0, 10⟩
    W8.default_hitinfo 0 (Or.inl (by decide))⟩

/-- Every point the disk sampler returns lies inside the disk of the
requested radius. -/
theorem sampleDisk_in_disk (radius : ℚ) (fuel t : ℕ) :
    (Lens.sampleDisk radius fuel t).1.1 * (Lens.sampleDisk radius fuel t).1.1 +
      (Lens.sampleDisk radius fuel t).1.2 * (Lens.sampleDisk radius fuel t).1.2 ≤
      radius * radius := by
  induction fuel generalizing t with
  | zero => simpa [Lens.sampleDisk] using mul_self_nonneg radius
  | succ f ih =>
    simp only [Lens.sampleDisk]
    split_ifs with h
    · have hr : 0 ≤ radius * radius := mul_self_nonneg radius
      dsimp only
      nlinarith [mul_nonneg hr (sub_nonneg.mpr h)]
    · exact ih _

/-- C9: the thin-lens camera samples a lens point on the disk of radius
`aperture / 2` in the lens plane spanned by `b1`/`b2` around the eye, builds
the sharp-focus point at distance `focalDistance` along the pinhole ray, and
returns the ray from the lens point toward that focus point. -/
theorem C9_thin_lens_ray_shape (fns : Fns) (cam : Lens.Cam) (ip : ℚ × ℚ) (t : ℕ) :
    ∃ lx ly : ℚ,
      lx * lx + ly * ly ≤ (cam.aperture / 2) * (cam.aperture / 2) ∧
      (Lens.thinLensRay fns cam ip t).1.origin = cam.eye + lx • cam.b1 + ly • cam.b2 ∧
      (Lens.thinLensRay fns cam ip t).1.direction =
        normalize3 fns (cam.eye + cam.focalDistance • Lens.pinholeDir fns cam ip -
          (Lens.thinLensRay fns cam ip t).1.origin) := by
  refine ⟨(Lens.sampleDisk (cam.aperture / 2) 65536 t).1.1,
    (Lens.sampleDisk (cam.aperture / 2) 65536 t).1.2,
    sampleDisk_in_disk _ _ _, ?_, ?_⟩ <;>
  · unfold Lens.thinLensRay
    rcases Lens.sampleDisk (cam.aperture / 2) 65536 t with ⟨⟨lx, ly⟩, t1⟩
    rfl

/-- C10: in the week08 sphere test, when the near root `-b - sqrt(disc)`
falls outside `[tmin, tmax]` the far root `-b + sqrt(disc)` is tested before
a miss is reported, and an accepted far root is recorded as the hit distance;
in the `hit_update`-based variant of the same routine the fall-back fires
when the near root is below `tmin` with the same recorded far hit; and for a
ray origin strictly inside the sphere, a faithful square root makes the near
root negative, so rays started inside a dielectric still register the far
surface. -/
theorem C10_sphere_far_root_fallback :
    (∀ (fns : Fns) (r : Ray) (hit : W8.HitInfo) (c : Vec3) (radius : ℚ),
      ¬ sphereDisc r c radius < 1 / 100000000 →
      (-sphereB r c - fns.sqrt (sphereDisc r c radius) < r.tmin ∨
        -sphereB r c - fns.sqrt (sphereDisc r c radius) > r.tmax) →
      ¬ (-sphereB r c + fns.sqrt (sphereDisc r c radius) < r.tmin ∨
        -sphereB r c + fns.sqrt (sphereDisc r c radius) > r.tmax) →
      (W8.intersect_sphere fns r hit c radius).2 = true ∧
        (W8.intersect_sphere fns r hit c radius).1.distance =
          -sphereB r c + fns.sqrt (sphereDisc r c radius) ∧
        (W8.intersect_sphere fns r hit c radius).1.has_hit = true) ∧
    (∀ (fns : Fns) (r : Ray) (hit : P0.HitInfo) (c : Vec3) (radius : ℚ)
      (ra rd rs : Vec3) (sh ior : ℚ) (id : ℕ),
      sphereDisc r c radius ≥ 0 →
      -sphereB r c - fns.sqrt (sphereDisc r c radius) < r.tmin →
      -sphereB r c + fns.sqrt (sphereDisc r c radius) ≥ r.tmin →
      -sphereB r c + fns.sqrt (sphereDisc r c radius) ≤ r.tmax →
      -sphereB r c + fns.sqrt (sphereDisc r c radius) < hit.dist →
      (P0.intersect_sphere fns r hit c radius ra rd rs sh ior id).has_hit = true ∧
        (P0.intersect_sphere fns r hit c radius ra rd rs sh ior id).dist =
          -sphereB r c + fns.sqrt (sphereDisc r c radius)) ∧
    (∀ (fns : Fns) (r : Ray) (c : Vec3) (radius : ℚ),
      fns.sqrt (sphereDisc r c radius) * fns.sqrt (sphereDisc r c radius) =
        sphereDisc r c radius →
      0 ≤ fns.sqrt (sphereDisc r c radius) →
      Vec3.dot (r.origin - c) (r.origin - c) < radius * radius →
      0 ≤ r.tmin →
      -sphereB r c - fns.sqrt (sphereDisc r c radius) < r.tmin) := by
  refine ⟨?_, ?_, ?_⟩
  · intro fns r hit c radius hd hnear hfar
    have ht : W8.sphereT fns r c radius =
        -sphereB r c + fns.sqrt (sphereDisc r c radius) := by
      unfold W8.sphereT
      rw [if_pos hnear]
    unfold W8.intersect_sphere
    rw [if_neg hd, ht, if_neg hfar]
    exact ⟨rfl, rfl, rfl⟩
  · intro fns r hit c radius ra rd rs sh ior id hd hnear hlo hhi hbest
    have ht : P0.sphereT0 fns r c radius =
        -sphereB r c + fns.sqrt (sphereDisc r c radius) := by
      unfold P0.sphereT0
      rw [if_pos hnear]
    unfold P0.intersect_sphere
    rw [if_pos hd, ht]
    unfold P0.hit_update
    rw [if_pos ⟨hlo, hhi, hbest⟩]
    exact ⟨rfl, rfl⟩
  · intro fns r c radius hs hs0 hin ht
    by_contra hcon
    push_neg at hcon
    have h1 : fns.sqrt (sphereDisc r c radius) ≤ -sphereB r c := by linarith
    have h2 : fns.sqrt (sphereDisc r c radius) * fns.sqrt (sphereDisc r c radius) ≤
        -sphereB r c * -sphereB r c :=
      mul_le_mul h1 h1 hs0 (by linarith)
    rw [hs] at h2
    have h3 : sphereDisc r c radius =
        sphereB r c * sphereB r c -
          (Vec3.dot (r.origin - c) (r.origin - c) - radius * radius) := rfl
    have h4 : -sphereB r c * -sphereB r c = sphereB r c * sphereB r c := by ring
    rw [h4, h3] at h2
    linarith

/-- Square-root table for the C10 witness: faithful at the argument `4`. -/
def fnsSqrt4 : Fns := ⟨fun q => if q = 4 then 2 else 0, fun _ => 0, fun _ => 0,
  fun _ => 0, fun _ => 0⟩

/-- The C10 witness ray: unit ray along `z` started at the sphere centre. -/
def rayC10 : Ray := ⟨0, ⟨0, 0, 1⟩, 1 / 1000, 10⟩

/-- Incoming analytic-scene hit record for the C10 witness. -/
def p0hitC10 : P0.HitInfo := ⟨false, 5, 0, 0, 0, 0, 0, 0, 1, 0, false⟩

attribute [local semireducible] Rat.add Rat.mul Rat.inv Rat.sub in
/-- Witness for C10: a ray started at the centre of a radius-2 sphere hits
the far surface at distance 2 in both sphere routines, and the inside-origin
bound applies. -/
theorem C10_witness :
    (W8.intersect_sphere fnsSqrt4 rayC10 W8.default_hitinfo 0 2).2 = true ∧
      (W8.intersect_sphere fnsSqrt4 rayC10 W8.default_hitinfo 0 2).1.distance =
        -sphereB rayC10 0 + fnsSqrt4.sqrt (sphereDisc rayC10 0 2) ∧
      (P0.intersect_sphere fnsSqrt4 rayC10 p0hitC10 0 2 0 0 0 0 1 0).has_hit = true ∧
      -sphereB rayC10 0 - fnsSqrt4.sqrt (sphereDisc rayC10 0 2) < rayC10.tmin :=
  ⟨(C10_sphere_far_root_fallback.1 fnsSqrt4 rayC10 W8.default_hitinfo 0 2 (by decide)
      (by decide) (by decide)).1,
    (C10_sphere_far_root_fallback.1 fnsSqrt4 rayC10 W8.default_hitinfo 0 2 (by decide)
      (by decide) (by decide)).2.1,
    (C10_sphere_far_root_fallback.2.1 fnsSqrt4 rayC10 p0hitC10 0 2 0 0 0 0 1 0
      (by decide) (by decide) (by decide) (by decide) (by decide)).1,
    C10_sphere_far_root_fallback.2.2 fnsSqrt4 rayC10 0 2 (by decide) (by decide)
      (by decide) (by decide)⟩

/-- Context for the C3 counterexample: one axis-aligned triangle in the plane
`z = 1`. -/
def ctxC3 : W8.Ctx :=
  ⟨[⟨⟨-1, -1, 1⟩, ⟨0, 0, 1⟩⟩, ⟨⟨3, -1, 1⟩, ⟨0, 0, 1⟩⟩, ⟨⟨-1, 3, 1⟩, ⟨0, 0, 1⟩⟩],
    [(0, 1, 2, 0)], [⟨0, 0⟩], 0, 0, [0], [(7, 0, 0, 0)], [0], [], 1⟩

/-- Ray for the C3 counterexample, with the current best hit distance `1`
carried in `tmax` as the BSP leaf loop does. -/
def rayC3 : Ray := ⟨0, ⟨0, 0, 1⟩, 0, 1⟩

/-- Hit record for the C3 counterexample, recording the current best hit at
distance exactly `1`. -/
def hitC3 : W8.HitInfo :=
  ⟨true, 1, ⟨9, 9, 9⟩, ⟨0, 0, 1⟩, 0, 0, 0, 0, 0, 1, 5, true, ⟨1, 1, 1⟩, 0⟩

attribute [local semireducible] Rat.add Rat.mul Rat.inv Rat.sub in
/-- Counterexample to C3 as stated: in the mesh triangle test the current
best is carried in `ray.tmax`, and a candidate at distance exactly equal to
it (`triT = tmax = hitC3.distance`) is accepted and replaces the recorded
hit — the comparison is not strictly-less there, so the last writer wins on
ties. -/
theorem C3_counterexample :
    W8.triT ctxC3 rayC3.origin rayC3.direction 0 = rayC3.tmax ∧
      hitC3.distance = rayC3.tmax ∧
      (W8.intersect_triangle ctxC3 fns0 rayC3 hitC3 0).2 = true ∧
      (W8.intersect_triangle ctxC3 fns0 rayC3 hitC3 0).1 ≠ hitC3 := by
  decide

/-- C3 amended: the claim holds for the analytic-scene primitive tests,
which all funnel through `hit_update` and compare strictly against the
current best distance (first writer wins ties); but in the mesh triangle
test, where the current best is carried in `ray.tmax`, a candidate at
exactly the current best distance is accepted (last writer wins ties). -/
theorem C3_tie_break_amended :
    (∀ (fns : Fns) (r : Ray) (hit : P0.HitInfo) (t : ℚ) (p n ra rd rs : Vec3)
      (sh ior : ℚ) (id : ℕ), ¬ t < hit.dist →
      P0.hit_update fns r hit t p n ra rd rs sh ior id = hit) ∧
    (∀ (ctx : W8.Ctx) (fns : Fns) (r : Ray) (hit : W8.HitInfo) (i : ℕ),
      W8.triGeomOK ctx r.origin r.direction i →
      W8.triT ctx r.origin r.direction i = r.tmax → r.tmin ≤ r.tmax →
      (W8.intersect_triangle ctx fns r hit i).2 = true) := by
  constructor
  · intro fns r hit t p n ra rd rs sh ior id hge
    unfold P0.hit_update
    rw [if_neg]
    rintro ⟨_, _, hlt⟩
    exact hge hlt
  · intro ctx fns r hit i hgeom htie hw
    rw [W8.intersect_triangle_spec, if_pos]
    constructor
    · exact hgeom
    · rw [htie]
      rintro (h | h)
      · exact absurd hw (not_le.mpr h)
      · exact absurd rfl (ne_of_gt h)

attribute [local semireducible] Rat.add Rat.mul Rat.inv Rat.sub in
/-- Witness for C3 amended: a tie candidate leaves the `hit_update` record
unchanged, while the mesh triangle test accepts a candidate at exactly
`tmax`. -/
theorem C3_witness :
    P0.hit_update fns0 rayC10 p0hitC10 5 0 0 0 0 0 0 1 2 = p0hitC10 ∧
      (W8.intersect_triangle ctxC3 fns0 rayC3 hitC3 0).2 = true :=
  ⟨C3_tie_break_amended.1 fns0 rayC10 p0hitC10 5 0 0 0 0 0 0 1 2 (by decide),
    C3_tie_break_amended.2 ctxC3 fns0 rayC3 hitC3 0 (by decide) (by decide) (by decide)⟩

namespace W8

/-- The incidence cosine `costhetai = dot(-r.direction, hit.normal)` computed
at the top of `transparent`. -/
def cosI (r : Ray) (hit : HitInfo) : ℚ := Vec3.dot (-r.direction) hit.normal

/-- The effective index ratio used by `transparent` after the exit-side flip:
`1/eta` when exiting (negative incidence cosine), `eta` when entering. -/
def etaEff (r : Ray) (hit : HitInfo) : ℚ :=
  if cosI r hit < 0 then 1 / hit.ior1_over_ior2 else hit.ior1_over_ior2

/-- The refraction discriminant `sin2thetat = eta^2 * (1 - costhetai^2)`
tested by `transparent` (the flip negates `costhetai`, leaving its square
unchanged). -/
def sin2theta (r : Ray) (hit : HitInfo) : ℚ :=
  etaEff r hit * etaEff r hit * (1 - cosI r hit * cosI r hit)

/-- The Bouguer transmittance `Tr = exp(-extinction * hit.distance)` of the
exit-side absorption block of `transparent`. -/
def absTr (fns : Fns) (hit : HitInfo) : Vec3 :=
  Vec3.map fns.exp ((-hit.distance) • hit.extinction)

/-- The absorption survival probability: the average channel of `Tr`. -/
def absProb (fns : Fns) (hit : HitInfo) : ℚ :=
  ((absTr fns hit).x + (absTr fns hit).y + (absTr fns hit).z) / 3

/-- Branch decomposition of `transparent`: the exit-side absorption roulette
in front of `transparentTail`, written through the named helpers. -/
theorem transparent_spec (fns : Fns) (r : Ray) (hit : HitInfo) (t : ℕ) :
    transparent fns r hit t =
      if cosI r hit < 0 then
        (if (rnd t).1 < absProb fns hit then
          transparentTail fns r (1 / hit.ior1_over_ior2) (-hit.normal) (-cosI r hit)
            { hit with
                emit := true
                throughput := hit.throughput * (1 / absProb fns hit) • absTr fns hit }
            (rnd t).2
        else (r, { hit with emit := true }, (rnd t).2, 0))
      else transparentTail fns r hit.ior1_over_ior2 hit.normal (cosI r hit)
        { hit with emit := true } t := rfl

/-- On total internal reflection `transparentTail` is exactly the mirror
step: reflected continuation ray, no refracted ray, no Fresnel sample. -/
theorem transparentTail_tir (fns : Fns) (r : Ray) (eta : ℚ) (n : Vec3) (ci : ℚ)
    (hitA : HitInfo) (tA : ℕ) (h : eta * eta * (1 - ci * ci) > 1) :
    transparentTail fns r eta n ci hitA tA =
      (⟨hitA.position, reflect r.direction hitA.normal, 1 / 1000, 1000000⟩,
        { hitA with emit := true, has_hit := false }, tA, 0) := by
  unfold transparentTail mirror
  rw [if_pos h]

/-- `transparentTail` never modifies the path throughput. -/
theorem transparentTail_throughput (fns : Fns) (r : Ray) (eta : ℚ) (n : Vec3)
    (ci : ℚ) (hitA : HitInfo) (tA : ℕ) :
    (transparentTail fns r eta n ci hitA tA).2.1.throughput = hitA.throughput := by
  unfold transparentTail mirror
  dsimp only
  split_ifs <;> rfl

end W8

/-- Math bundle for the C4 counterexample: the volumetric transmittance
evaluates to `1/4` per channel. -/
def fnsC4 : Fns := ⟨fun _ => 0, fun _ => 1 / 4, fun _ => 0, fun _ => 0, fun _ => 0⟩

/-- Ray for the C4 counterexample: leaving the glass sphere. -/
def rayC4 : Ray := ⟨0, ⟨0, 4 / 5, 3 / 5⟩, 1 / 1000, 1000000⟩

/-- Hit record for the C4 counterexample: an exit-side dielectric hit beyond
the critical angle (`ior 1.5`, incidence cosine `3/5`). -/
def hitC4 : W8.HitInfo :=
  ⟨true, 1, ⟨0, 4 / 5, 3 / 5⟩, ⟨0, 0, 1⟩, 0, 0, 0, 2 / 3, 0, 6, 0, true, ⟨1, 1, 1⟩,
    ⟨1, 1, 1⟩⟩

attribute [local semireducible] Rat.add Rat.mul Rat.inv Rat.sub in
/-- Counterexample to C4 as stated: at this exit-side hit the refraction
discriminant indicates total internal reflection, yet the absorption
roulette (which the code runs before the discriminant test) fails, so the
path terminates with the ray unchanged — the mirror branch is not taken and
the continuation direction is not the reflection. -/
theorem C4_counterexample :
    W8.cosI rayC4 hitC4 < 0 ∧ W8.sin2theta rayC4 hitC4 > 1 ∧
      (W8.transparent fnsC4 rayC4 hitC4 1).1 = rayC4 ∧
      rayC4.direction ≠ reflect rayC4.direction hitC4.normal ∧
      (W8.transparent fnsC4 rayC4 hitC4 1).2.1.has_hit = true ∧
      (W8.transparent fnsC4 rayC4 hitC4 1).2.2.2 = 0 := by
  decide

/-- C4 amended: a total-internal-reflection hit takes the mirror branch —
reflected continuation direction, no refracted ray generated and no
stochastic Fresnel choice — provided the hit either enters the volume or
survives the exit-side absorption roulette; an exit-side TIR hit whose
absorption roulette fails instead terminates with zero radiance before the
discriminant is ever tested. -/
theorem C4_tir_takes_mirror_branch (fns : Fns) (r : Ray) (hit : W8.HitInfo) (t : ℕ)
    (h_tir : W8.sin2theta r hit > 1)
    (h_live : 0 ≤ W8.cosI r hit ∨ (rnd t).1 < W8.absProb fns hit) :
    (W8.transparent fns r hit t).1.direction = reflect r.direction hit.normal ∧
      (W8.transparent fns r hit t).1.origin = hit.position ∧
      (W8.transparent fns r hit t).2.1.has_hit = false ∧
      (W8.transparent fns r hit t).2.1.emit = true ∧
      (W8.transparent fns r hit t).2.2.2 = 0 ∧
      (W8.transparent fns r hit t).2.2.1 = (if W8.cosI r hit < 0 then (rnd t).2 else t) := by
  rw [W8.transparent_spec]
  by_cases hc : W8.cosI r hit < 0
  · have hxi : (rnd t).1 < W8.absProb fns hit := by
      rcases h_live with h | h
      · exact absurd hc (not_lt.mpr h)
      · exact h
    rw [if_pos hc, if_pos hxi]
    have hkey : (1 / hit.ior1_over_ior2) * (1 / hit.ior1_over_ior2) *
        (1 - -W8.cosI r hit * -W8.cosI r hit) > 1 := by
      have heq : (1 / hit.ior1_over_ior2) * (1 / hit.ior1_over_ior2) *
          (1 - -W8.cosI r hit * -W8.cosI r hit) = W8.sin2theta r hit := by
        unfold W8.sin2theta W8.etaEff
        rw [if_pos hc]
        ring
      rw [heq]
      exact h_tir
    rw [W8.transparentTail_tir fns r _ _ _ _ _ hkey, if_pos hc]
    exact ⟨rfl, rfl, rfl, rfl, rfl, rfl⟩
  · rw [if_neg hc]
    have hkey : hit.ior1_over_ior2 * hit.ior1_over_ior2 *
        (1 - W8.cosI r hit * W8.cosI r hit) > 1 := by
      have heq : hit.ior1_over_ior2 * hit.ior1_over_ior2 *
          (1 - W8.cosI r hit * W8.cosI r hit) = W8.sin2theta r hit := by
        unfold W8.sin2theta W8.etaEff
        rw [if_neg hc]
      rw [heq]
      exact h_tir
    rw [W8.transparentTail_tir fns r _ _ _ _ _ hkey, if_neg hc]
    exact ⟨rfl, rfl, rfl, rfl, rfl, rfl⟩

/-- Hit record for the C4 witness: an entering hit with index ratio `2`
(dense-to-light interface), past the critical angle. -/
def hitC4w : W8.HitInfo :=
  ⟨true, 1, ⟨0, 0, 0⟩, ⟨0, 0, 1⟩, 0, 0, 0, 2, 0, 6, 0, true, ⟨1, 1, 1⟩, 0⟩

/-- Ray for the C4 witness: entering incidence with cosine `3/5`. -/
def rayC4w : Ray := ⟨0, ⟨0, -4 / 5, -3 / 5⟩, 1 / 1000, 1000000⟩

attribute [local semireducible] Rat.add Rat.mul Rat.inv Rat.sub in
/-- Witness for C4 amended at a concrete entering TIR hit. -/
theorem C4_witness :
    (W8.sin2theta rayC4w hitC4w > 1 ∧ 0 ≤ W8.cosI rayC4w hitC4w) ∧
      (W8.transparent fns0 rayC4w hitC4w 7).1.direction =
        reflect rayC4w.direction hitC4w.normal :=
  ⟨⟨by decide, by decide⟩,
    (C4_tir_takes_mirror_branch fns0 rayC4w hitC4w 7 (by decide)
      (Or.inl (by decide))).1⟩

/-- C5: on every exit-side dielectric hit (negative incidence cosine)
`transparent` computes the transmittance `Tr = exp(-extinction * distance)`
(`W8.absTr`), makes one Russian-roulette decision with survival probability
the average channel of `Tr` (`W8.absProb`); survivors multiply the
throughput by `Tr / prob` and nothing later changes it, while failures
terminate: radiance `0`, ray unchanged, `has_hit` (and with it the path
break) untouched.  Entering hits never have absorption applied. -/
theorem C5_exit_absorption_roulette (fns : Fns) (r : Ray) (hit : W8.HitInfo) (t : ℕ) :
    (W8.cosI r hit < 0 →
      ((rnd t).1 < W8.absProb fns hit →
        (W8.transparent fns r hit t).2.1.throughput =
          hit.throughput * (1 / W8.absProb fns hit) • W8.absTr fns hit) ∧
      (¬ (rnd t).1 < W8.absProb fns hit →
        W8.transparent fns r hit t = (r, { hit with emit := true }, (rnd t).2, 0))) ∧
    (0 ≤ W8.cosI r hit →
      (W8.transparent fns r hit t).2.1.throughput = hit.throughput) := by
  constructor
  · intro hc
    constructor
    · intro hxi
      rw [W8.transparent_spec, if_pos hc, if_pos hxi, W8.transparentTail_throughput]
    · intro hxi
      rw [W8.transparent_spec, if_pos hc, if_neg hxi]
  · intro hc
    rw [W8.transparent_spec, if_neg (not_lt.mpr hc), W8.transparentTail_throughput]

attribute [local semireducible] Rat.add Rat.mul Rat.inv Rat.sub in
/-- Witness for C5: the concrete exit-side hit of the C4 counterexample
fails its roulette (termination), and a survivor state multiplies the
throughput by `Tr / prob`; an entering hit keeps its throughput. -/
theorem C5_witness :
    (W8.cosI rayC4 hitC4 < 0 ∧ ¬ (rnd 1).1 < W8.absProb fnsC4 hitC4 ∧
        W8.transparent fnsC4 rayC4 hitC4 1 = (rayC4, { hitC4 with emit := true }, (rnd 1).2, 0)) ∧
      ((rnd 10).1 < W8.absProb fnsC4 hitC4 ∧
        (W8.transparent fnsC4 rayC4 hitC4 10).2.1.throughput =
          hitC4.throughput * (1 / W8.absProb fnsC4 hitC4) • W8.absTr fnsC4 hitC4) ∧
      (0 ≤ W8.cosI rayC4w hitC4w ∧
        (W8.transparent fns0 rayC4w hitC4w 7).2.1.throughput = hitC4w.throughput) :=
  ⟨⟨by decide, by decide,
      (C5_exit_absorption_roulette fnsC4 rayC4 hitC4 1).1 (by decide) |>.2 (by decide)⟩,
    ⟨by decide,
      (C5_exit_absorption_roulette fnsC4 rayC4 hitC4 10).1 (by decide) |>.1 (by decide)⟩,
    ⟨by decide, (C5_exit_absorption_roulette fns0 rayC4w hitC4w 7).2 (by decide)⟩⟩

/-- The shader's `rnd` always lies in `[0, 1)`. -/
theorem rnd_mem_Ico (s : ℕ) : 0 ≤ (rnd s).1 ∧ (rnd s).1 < 1 := by
  unfold rnd
  constructor
  · positivity
  · rw [div_lt_one (by norm_num)]
    have h : mcg31 s < 2147483648 := Nat.mod_lt _ (by norm_num)
    exact_mod_cast h

/-- C6: the diffuse Russian-roulette division by the survival probability
`Pd` is gated by a fresh `rnd` draw, which always lies in `[0, 1)`; when
`Pd ≤ 0` the gate can never pass, so `lambertian` terminates the path
without the continuation bounce (ray untouched, `has_hit` untouched) and
without dividing by `Pd` — the throughput has only been multiplied by the
diffuse albedo. -/
theorem C6_zero_probability_terminates :
    (∀ s : ℕ, 0 ≤ (rnd s).1 ∧ (rnd s).1 < 1) ∧
    (∀ (ctx : W8.Ctx) (fns : Fns) (r : Ray) (hit : W8.HitInfo) (t : ℕ),
      ((hit.throughput * hit.diffuse).x + (hit.throughput * hit.diffuse).y +
          (hit.throughput * hit.diffuse).z) / 3 ≤ 0 →
      (W8.lambertian ctx fns r hit t).1 = r ∧
        (W8.lambertian ctx fns r hit t).2.1.has_hit = hit.has_hit ∧
        (W8.lambertian ctx fns r hit t).2.1.emit = hit.emit ∧
        (W8.lambertian ctx fns r hit t).2.1.throughput = hit.throughput * hit.diffuse) := by
  refine ⟨rnd_mem_Ico, ?_⟩
  intro ctx fns r hit t hPd
  unfold W8.lambertian
  rcases hsa : W8.sample_area_light ctx fns hit.position t with ⟨light, t1⟩
  dsimp only
  rcases hsc : W8.intersect_scene ctx fns
      ⟨hit.position, light.w_i, 1 / 1000, light.dist - 1 / 1000⟩ W8.default_hitinfo with
    ⟨ra, ha, occ⟩
  dsimp only [rnd]
  have h0 : (0 : ℚ) ≤ ((mcg31 t1 : ℕ) : ℚ) / 2147483648 := by positivity
  rw [if_neg (not_lt.mpr (le_trans hPd h0))]
  exact ⟨rfl, rfl, rfl, rfl⟩

/-- Hit record for the C6 witness: zero diffuse albedo gives survival
probability zero. -/
def hitC6 : W8.HitInfo :=
  ⟨true, 1, ⟨5, 5, 5⟩, ⟨0, 0, 1⟩, 0, 0, 0, 0, 0, 1, 0, true, ⟨1, 1, 1⟩, 0⟩

attribute [local semireducible] Rat.add Rat.mul Rat.inv Rat.sub in
/-- Witness for C6 on a black-albedo hit: the roulette cannot pass and the
path stops without a bounce. -/
theorem C6_witness :
    ((hitC6.throughput * hitC6.diffuse).x + (hitC6.throughput * hitC6.diffuse).y +
        (hitC6.throughput * hitC6.diffuse).z) / 3 ≤ 0 ∧
      (W8.lambertian ctxEmpty fns0 rayC10 hitC6 3).1 = rayC10 :=
  ⟨by decide,
    (C6_zero_probability_terminates.2 ctxEmpty fns0 rayC10 hitC6 3 (by decide)).1⟩

/-- C7: on a diffuse hit, next-event estimation picks exactly one emissive
triangle uniformly (`lightIndices[u32(rnd * numLights)]`, a valid index for
every draw), samples one point on it, weights the emitted radiance by the
facing cosine, the triangle area and the number of lights (the unbiased
single-sample estimator), and `lambertian` casts one shadow ray with `tmax`
shortened to `dist - 1e-3`, adding the direct term
`(diffuse/Pi) * L_i * max(0, cos)` to the returned radiance if and only if
that shadow ray hits nothing. -/
theorem C7_nee_single_light_sample (ctx : W8.Ctx) (fns : Fns) (r : Ray)
    (hit : W8.HitInfo) (t : ℕ) (hl : ctx.lightIndices ≠ []) :
    Nat.floor ((rnd t).1 * ctx.lightIndices.length) < ctx.lightIndices.length ∧
    (let lidx := ctx.lightIndices.getD
        (Nat.floor ((rnd t).1 * ctx.lightIndices.length)) 0
     let f := W8.face ctx lidx
     let v0 := W8.vpos ctx f.1
     let v1 := W8.vpos ctx f.2.1
     let v2 := W8.vpos ctx f.2.2.1
     let sq := fns.sqrt (rnd (rnd t).2).1
     let r2v := (rnd (rnd (rnd t).2).2).1
     let n_l := normalize3 fns ((1 - sq) • W8.vnrm ctx f.1 +
        ((1 - r2v) * sq) • W8.vnrm ctx f.2.1 + (r2v * sq) • W8.vnrm ctx f.2.2.1)
     let lp := (1 - sq) • v0 + ((1 - r2v) * sq) • v1 + (r2v * sq) • v2
     let w := normalize3 fns (lp - hit.position)
     (W8.sample_area_light ctx fns hit.position t).1.w_i = w ∧
       (W8.sample_area_light ctx fns hit.position t).1.dist =
         lengthF fns (lp - hit.position) ∧
       (W8.sample_area_light ctx fns hit.position t).1.L_i =
         (max0 (Vec3.dot (-w) n_l) *
             (lengthF fns (Vec3.cross (v1 - v0) (v2 - v0)) * (1 / 2)) *
             ctx.lightIndices.length) •
           (ctx.materials.getD f.2.2.2 ⟨0, 0⟩).emission) ∧
    ((W8.lambertian ctx fns r hit t).2.2.2 =
      (if (W8.intersect_scene ctx fns
            ⟨hit.position, (W8.sample_area_light ctx fns hit.position t).1.w_i, 1 / 1000,
              (W8.sample_area_light ctx fns hit.position t).1.dist - 1 / 1000⟩
            W8.default_hitinfo).2.2 = true then 0
        else max0 (Vec3.dot hit.normal (W8.sample_area_light ctx fns hit.position t).1.w_i) •
          ((1 / Pi) • hit.diffuse * (W8.sample_area_light ctx fns hit.position t).1.L_i)) +
        hit.emission) := by
  have hlen0 : ctx.lightIndices.length ≠ 0 := fun h => hl (List.length_eq_zero.mp h)
  refine ⟨?_, ?_, ?_⟩
  · have h1 : (0 : ℚ) ≤ (rnd t).1 * ctx.lightIndices.length :=
      mul_nonneg (rnd_mem_Ico t).1 (by positivity)
    have hlen : (0 : ℚ) < ctx.lightIndices.length := by
      exact_mod_cast Nat.pos_of_ne_zero hlen0
    have h2 : (rnd t).1 * ctx.lightIndices.length < ctx.lightIndices.length := by
      calc (rnd t).1 * (ctx.lightIndices.length : ℚ) <
            1 * ctx.lightIndices.length :=
          mul_lt_mul_of_pos_right (rnd_mem_Ico t).2 hlen
        _ = ctx.lightIndices.length := one_mul _
    exact (Nat.floor_lt h1).mpr h2
  · unfold W8.sample_area_light
    rw [if_neg hlen0]
    exact ⟨rfl, rfl, rfl⟩
  · unfold W8.lambertian
    rcases hsa : W8.sample_area_light ctx fns hit.position t with ⟨light, t1⟩
    dsimp only
    rcases hsc : W8.intersect_scene ctx fns
        ⟨hit.position, light.w_i, 1 / 1000, light.dist - 1 / 1000⟩ W8.default_hitinfo with
      ⟨ra, ha, occ⟩
    dsimp only [rnd]
    by_cases hocc : occ = true
    · subst hocc
      rw [if_pos rfl]
      split_ifs <;> simp_all
    · have hocc' : occ = false := by
        cases occ
        · rfl
        · exact absurd rfl hocc
      subst hocc'
      rw [if_neg (by decide : ¬ (false = true))]
      split_ifs <;> simp_all

/-- One-light context for the C7 witness: a single emissive triangle. -/
def ctxC7 : W8.Ctx :=
  ⟨[⟨⟨0, 4, 0⟩, ⟨0, -1, 0⟩⟩, ⟨⟨1, 4, 0⟩, ⟨0, -1, 0⟩⟩, ⟨⟨0, 4, 1⟩, ⟨0, -1, 0⟩⟩],
    [(0, 1, 2, 0)], [⟨⟨10, 10, 10⟩, 0⟩], ⟨-5, -5, -5⟩, ⟨5, 5, 5⟩, [0],
    [(3, 0, 0, 0)], [0], [0], 1⟩

attribute [local semireducible] Rat.add Rat.mul Rat.inv Rat.sub in
/-- Witness for C7 on the one-light context. -/
theorem C7_witness :
    ctxC7.lightIndices ≠ [] ∧
      Nat.floor ((rnd 5).1 * ctxC7.lightIndices.length) < ctxC7.lightIndices.length :=
  ⟨by decide, (C7_nee_single_light_sample ctxC7 fns0 rayC10 hitC6 5 (by decide)).1⟩

/-- Week08 mesh for C1 counterexample part 1: a single triangle nearly
parallel to the ray, with determinant magnitude `2e-5` — accepted by the
week08 epsilon `1e-8`, rejected by the week06 epsilon `1e-4`. -/
def ctxEps8 : W8.Ctx :=
  ⟨[⟨⟨0, -1, 0⟩, ⟨0, 0, 1⟩⟩, ⟨⟨0, 1, 100⟩, ⟨0, 0, 1⟩⟩,
      ⟨⟨1 / 100000, 0, 200⟩, ⟨0, 0, 1⟩⟩],
    [(0, 1, 2, 0)], [⟨0, 0⟩], ⟨-1000, -1000, -1000⟩, ⟨1000, 1000, 1000⟩,
    [0], [(7, 0, 0, 0)], [0], [], 1⟩

/-- The same mesh in the week06 buffer layout. -/
def ctx6Eps : W6.Ctx6 :=
  ⟨[⟨0, -1, 0⟩, ⟨0, 1, 100⟩, ⟨1 / 100000, 0, 200⟩],
    [⟨0, 0, 1⟩, ⟨0, 0, 1⟩, ⟨0, 0, 1⟩], [(0, 1, 2)], [⟨0, 0⟩], [0], 1⟩

/-- Grazing ray for C1 counterexample part 1. -/
def rayEps : Ray := ⟨0, ⟨0, 0, 1⟩, 1 / 1000, 1000000⟩

/-- Week08 mesh and BSP for C1 counterexample part 2: an `x = 1` split with
an empty left leaf and a triangle strictly inside the right cell; the ray
starts at `x = 2` with `x`-direction `-1e-9`, below the traversal's `1e-8`
guard. -/
def ctxTiny : W8.Ctx :=
  ⟨[⟨⟨3 / 2, 0, 5⟩, ⟨0, 0, 1⟩⟩, ⟨⟨5 / 2, 0, 5⟩, ⟨0, 0, 1⟩⟩, ⟨⟨2, 10, 5⟩, ⟨0, 0, 1⟩⟩],
    [(0, 1, 2, 0)], [⟨0, 0⟩], ⟨-1000, -1000, -1000⟩, ⟨1000, 1000, 1000⟩,
    [0], [(0, 0, 1, 2), (3, 0, 0, 0), (7, 0, 0, 0)], [1, 0, 0], [], 1⟩

/-- The same mesh in the week06 buffer layout. -/
def ctx6Tiny : W6.Ctx6 :=
  ⟨[⟨3 / 2, 0, 5⟩, ⟨5 / 2, 0, 5⟩, ⟨2, 10, 5⟩],
    [⟨0, 0, 1⟩, ⟨0, 0, 1⟩, ⟨0, 0, 1⟩], [(0, 1, 2)], [⟨0, 0⟩], [0], 1⟩

/-- Ray for C1 counterexample part 2. -/
def rayTiny : Ray := ⟨⟨2, 0, 0⟩, ⟨-1 / 1000000000, 1, 1⟩, 1 / 1000, 1000000⟩

attribute [local semireducible] Rat.add Rat.mul Rat.inv Rat.sub in
/-- Counterexample to C1 as stated, in both directions.  Part 1: the BSP
traversal (week08 triangle test, epsilon `1e-8`) reports a hit at distance
`50` that the week06 brute-force scan (epsilon `1e-4`) misses, because the
two shaders use different determinant epsilons.  Part 2: for a ray whose
`x` direction component lies below the traversal's `1e-8` guard, the
traversal substitutes `1e-8` for the divisor, sends the ray into the wrong
child, and misses a clean hit at distance `5` that both the week06 scan and
a same-epsilon linear scan report. -/
theorem C1_counterexample :
    ((W8.intersect_trimesh ctxEps8 fns0 rayEps W8.default_hitinfo).2.2 = true ∧
      (W8.intersect_trimesh ctxEps8 fns0 rayEps W8.default_hitinfo).1.distance = 50 ∧
      (W6.intersect_scene ctx6Eps fns0 rayEps W6.default_hitinfo).2.2 = false) ∧
    ((W8.intersect_trimesh ctxTiny fns0 rayTiny W8.default_hitinfo).2.2 = false ∧
      (W6.intersect_scene ctx6Tiny fns0 rayTiny W6.default_hitinfo).2.2 = true ∧
      (W6.intersect_scene ctx6Tiny fns0 rayTiny W6.default_hitinfo).2.1.distance = 5 ∧
      (W8.linear_scan ctxTiny fns0 rayTiny W8.default_hitinfo).2.2 = true ∧
      (W8.linear_scan ctxTiny fns0 rayTiny W8.default_hitinfo).1.distance = 5) := by
  decide

@[simp] theorem Vec3.comp_add (a b : Vec3) (i : ℕ) :
    Vec3.comp (a + b) i = Vec3.comp a i + Vec3.comp b i := by
  unfold Vec3.comp
  split_ifs <;> simp

@[simp] theorem Vec3.comp_smul (c : ℚ) (a : Vec3) (i : ℕ) :
    Vec3.comp (c • a) i = c * Vec3.comp a i := by
  unfold Vec3.comp
  split_ifs <;> simp

/-- Direction regularity for the amended refinement claim: every component
of the direction has magnitude at least the traversal's `1e-8` guard. -/
def dirEps (D : Vec3) : Prop :=
  1 / 100000000 ≤ |D.x| ∧ 1 / 100000000 ≤ |D.y| ∧ 1 / 100000000 ≤ |D.z|

theorem dirEps_comp {D : Vec3} (h : dirEps D) {a : ℕ} (ha : a < 3) :
    1 / 100000000 ≤ |Vec3.comp D a| := by
  unfold Vec3.comp
  rcases h with ⟨h0, h1, h2⟩
  interval_cases a <;> simp only [] <;>
    first
      | simpa using h0
      | simpa using h1
      | simpa using h2

namespace W8

/-- Modelled from the spec: an axis-aligned halfspace constraint of the BSP
subdivision (split axis, plane offset, and which side), used to express the
cell of a node.  The builder (`common/` BSP code) is not under `src/`, so
well-formedness of the tree is specified from spec sections 3 and 4.1. -/
structure HS where
  axis : ℕ
  plane : ℚ
  upper : Bool
deriving DecidableEq

/-- A BSP cell: the conjunction of the halfspaces along the root path. -/
abbrev Region : Type := List HS

/-- Closed membership of a point in a halfspace. -/
def memHS (p : Vec3) (c : HS) : Bool :=
  if c.upper then decide (c.plane ≤ Vec3.comp p c.axis)
  else decide (Vec3.comp p c.axis ≤ c.plane)

/-- Closed membership of a point in a cell. -/
def memR (p : Vec3) (R : Region) : Bool := List.all R (memHS p)

/-- Strict membership of a point in a halfspace. -/
def strictHS (p : Vec3) (c : HS) : Bool :=
  if c.upper then decide (c.plane < Vec3.comp p c.axis)
  else decide (Vec3.comp p c.axis < c.plane)

/-- Modelled from the spec: triangle `j` lies strictly inside the cell `R`
(all three vertices strictly satisfy every constraint). -/
def triStrictIn (ctx : Ctx) (j : ℕ) (R : Region) : Bool :=
  List.all R (fun c =>
    strictHS (vpos ctx (face ctx j).1) c && strictHS (vpos ctx (face ctx j).2.1) c &&
      strictHS (vpos ctx (face ctx j).2.2.1) c)

/-- Triangle `j` appears in the id range of the leaf node record `tn`. -/
def listedIn (ctx : Ctx) (j : ℕ) (tn : ℕ × ℕ × ℕ × ℕ) : Bool :=
  List.any (List.range (tn.1 / 4)) (fun k => ctx.treeIds.getD (tn.2.1 + k) 0 == j)

/-- Modelled from the spec: structural well-formedness of the subtree at
`node` with `b` internal levels of budget left — every root-to-leaf path
reaches a leaf marker within the budget (spec section 4.1's depth cap,
matching the traversal's `MAX_LEVEL`). -/
def wfNode (ctx : Ctx) : ℕ → ℕ → Bool
  | 0, node => (ctx.bspTree.getD node (0, 0, 0, 0)).1 % 4 == 3
  | b + 1, node =>
    if (ctx.bspTree.getD node (0, 0, 0, 0)).1 % 4 == 3 then true
    else
      wfNode ctx b (ctx.bspTree.getD node (0, 0, 0, 0)).2.2.1 &&
        wfNode ctx b (ctx.bspTree.getD node (0, 0, 0, 0)).2.2.2

/-- Modelled from the spec: triangle `j` is covered below `node` (whose cell
is `R`): some leaf of the subtree lists `j` and contains it strictly — the
spec section 3 invariant that every triangle appears in a leaf whose volume
contains it, strengthened to strict containment.  The `z` child is the lower
halfspace and the `w` child the upper one, matching the traversal's near and
far resolution by direction sign. -/
def covered (ctx : Ctx) (j : ℕ) : ℕ → ℕ → Region → Bool
  | 0, node, R =>
    ((ctx.bspTree.getD node (0, 0, 0, 0)).1 % 4 == 3) &&
      listedIn ctx j (ctx.bspTree.getD node (0, 0, 0, 0)) && triStrictIn ctx j R
  | b + 1, node, R =>
    if (ctx.bspTree.getD node (0, 0, 0, 0)).1 % 4 == 3 then
      listedIn ctx j (ctx.bspTree.getD node (0, 0, 0, 0)) && triStrictIn ctx j R
    else
      covered ctx j b (ctx.bspTree.getD node (0, 0, 0, 0)).2.2.1
          (⟨(ctx.bspTree.getD node (0, 0, 0, 0)).1 % 4,
            ctx.bspPlanes.getD node 0, false⟩ :: R) ||
        covered ctx j b (ctx.bspTree.getD node (0, 0, 0, 0)).2.2.2
          (⟨(ctx.bspTree.getD node (0, 0, 0, 0)).1 % 4,
            ctx.bspPlanes.getD node 0, true⟩ :: R)

/-- Modelled from the spec: a well-formed BSP tree over the mesh — the root
subtree is structurally well formed within the `MAX_LEVEL` budget and every
triangle of the mesh is covered by some leaf that lists it and strictly
contains it. -/
def wellFormed (ctx : Ctx) : Bool :=
  wfNode ctx 20 0 &&
    List.all (List.range ctx.meshFaces.length) (fun j => covered ctx j 20 0 [])

/-- Global validity of a triangle hit for the refinement claim: real
triangle index, geometric acceptance, and plane parameter within the
original ray window. -/
def GV (ctx : Ctx) (O D : Vec3) (lo hi : ℚ) (j : ℕ) : Prop :=
  j < ctx.meshFaces.length ∧ triGeomOK ctx O D j ∧ lo ≤ triT ctx O D j ∧
    triT ctx O D j ≤ hi

end W8

namespace W8

theorem wfNode_leaf_zero {ctx : Ctx} {node : ℕ} (h : wfNode ctx 0 node = true) :
    (ctx.bspTree.getD node (0, 0, 0, 0)).1 % 4 = 3 := by
  simpa [wfNode] using h

theorem wfNode_internal {ctx : Ctx} {b node : ℕ} (h : wfNode ctx b node = true)
    (hn : (ctx.bspTree.getD node (0, 0, 0, 0)).1 % 4 ≠ 3) :
    ∃ b', b = b' + 1 ∧
      wfNode ctx b' (ctx.bspTree.getD node (0, 0, 0, 0)).2.2.1 = true ∧
      wfNode ctx b' (ctx.bspTree.getD node (0, 0, 0, 0)).2.2.2 = true := by
  cases b with
  | zero => exact absurd (wfNode_leaf_zero h) hn
  | succ b' =>
    refine ⟨b', rfl, ?_⟩
    unfold wfNode at h
    rw [if_neg (by simpa using hn)] at h
    simpa using h

theorem covered_leaf {ctx : Ctx} {j b node : ℕ} {R : Region}
    (h : covered ctx j b node R = true) :
    (ctx.bspTree.getD node (0, 0, 0, 0)).1 % 4 = 3 →
    listedIn ctx j (ctx.bspTree.getD node (0, 0, 0, 0)) = true ∧
      triStrictIn ctx j R = true := by
  intro hl
  cases b with
  | zero =>
    unfold covered at h
    simp only [Bool.and_eq_true, beq_iff_eq] at h
    exact ⟨h.1.2, h.2⟩
  | succ b' =>
    unfold covered at h
    rw [if_pos (by simpa using hl)] at h
    simpa using h

theorem covered_internal {ctx : Ctx} {j b node : ℕ} {R : Region}
    (h : covered ctx j b node R = true)
    (hn : (ctx.bspTree.getD node (0, 0, 0, 0)).1 % 4 ≠ 3) :
    ∃ b', b = b' + 1 ∧
      (covered ctx j b' (ctx.bspTree.getD node (0, 0, 0, 0)).2.2.1
          (⟨(ctx.bspTree.getD node (0, 0, 0, 0)).1 % 4,
            ctx.bspPlanes.getD node 0, false⟩ :: R) = true ∨
        covered ctx j b' (ctx.bspTree.getD node (0, 0, 0, 0)).2.2.2
          (⟨(ctx.bspTree.getD node (0, 0, 0, 0)).1 % 4,
            ctx.bspPlanes.getD node 0, true⟩ :: R) = true) := by
  cases b with
  | zero =>
    unfold covered at h
    simp only [Bool.and_eq_true, beq_iff_eq] at h
    exact absurd h.1.1 hn
  | succ b' =>
    refine ⟨b', rfl, ?_⟩
    unfold covered at h
    rw [if_neg (by simpa using hn)] at h
    simpa using h

theorem covered_strict {ctx : Ctx} {j : ℕ} :
    ∀ {b node : ℕ} {R : Region}, covered ctx j b node R = true →
    ∀ c ∈ R, strictHS (vpos ctx (face ctx j).1) c = true ∧
      strictHS (vpos ctx (face ctx j).2.1) c = true ∧
      strictHS (vpos ctx (face ctx j).2.2.1) c = true := by
  intro b
  induction b with
  | zero =>
    intro node R h c hc
    unfold covered at h
    simp only [Bool.and_eq_true] at h
    have := h.2
    unfold triStrictIn at this
    rw [List.all_eq_true] at this
    have hx := this c hc
    simp only [Bool.and_eq_true] at hx
    exact ⟨hx.1.1, hx.1.2, hx.2⟩
  | succ b' ih =>
    intro node R h c hc
    unfold covered at h
    split_ifs at h with hl
    · simp only [Bool.and_eq_true] at h
      have := h.2
      unfold triStrictIn at this
      rw [List.all_eq_true] at this
      have hx := this c hc
      simp only [Bool.and_eq_true] at hx
      exact ⟨hx.1.1, hx.1.2, hx.2⟩
    · simp only [Bool.or_eq_true] at h
      rcases h with h | h
      · exact ih h c (List.mem_cons_of_mem _ hc)
      · exact ih h c (List.mem_cons_of_mem _ hc)

theorem triGeomOK_oob {ctx : Ctx} {O D : Vec3} {j : ℕ}
    (hj : ctx.meshFaces.length ≤ j) : ¬ triGeomOK ctx O D j := by
  intro h
  have hface : face ctx j = (0, 0, 0, 0) := by
    unfold face
    exact List.getD_eq_default _ _ hj
  have hq : triQ ctx D j = 0 := by
    unfold triQ triN
    rw [hface]
    simp [Vec3.cross, Vec3.dot, sub_self]
  exact h.1 (by rw [hq]; norm_num)

theorem triQ_ne_zero {ctx : Ctx} {O D : Vec3} {j : ℕ} (h : triGeomOK ctx O D j) :
    triQ ctx D j ≠ 0 := by
  intro h0
  exact h.1 (by rw [h0]; norm_num)

end W8

theorem convex_lt {a0 a1 a2 x0 x1 x2 p : ℚ} (h0 : 0 ≤ a0) (h1 : 0 ≤ a1)
    (h2 : 0 ≤ a2) (hs : a0 + a1 + a2 = 1) (hx0 : x0 < p) (hx1 : x1 < p)
    (hx2 : x2 < p) : a0 * x0 + a1 * x1 + a2 * x2 < p := by
  have hp : a0 * p + a1 * p + a2 * p = p := by
    rw [← add_mul, ← add_mul, hs, one_mul]
  have hbig : 1 / 3 ≤ a0 ∨ 1 / 3 ≤ a1 ∨ 1 / 3 ≤ a2 := by
    by_contra hc
    push_neg at hc
    linarith [hc.1, hc.2.1, hc.2.2]
  have e0 : a0 * x0 ≤ a0 * p := mul_le_mul_of_nonneg_left hx0.le h0
  have e1 : a1 * x1 ≤ a1 * p := mul_le_mul_of_nonneg_left hx1.le h1
  have e2 : a2 * x2 ≤ a2 * p := mul_le_mul_of_nonneg_left hx2.le h2
  rcases hbig with hb | hb | hb
  · have : a0 * x0 < a0 * p :=
      mul_lt_mul_of_pos_left hx0 (lt_of_lt_of_le (by norm_num) hb)
    linarith
  · have : a1 * x1 < a1 * p :=
      mul_lt_mul_of_pos_left hx1 (lt_of_lt_of_le (by norm_num) hb)
    linarith
  · have : a2 * x2 < a2 * p :=
      mul_lt_mul_of_pos_left hx2 (lt_of_lt_of_le (by norm_num) hb)
    linarith

theorem convex_gt {a0 a1 a2 x0 x1 x2 p : ℚ} (h0 : 0 ≤ a0) (h1 : 0 ≤ a1)
    (h2 : 0 ≤ a2) (hs : a0 + a1 + a2 = 1) (hx0 : p < x0) (hx1 : p < x1)
    (hx2 : p < x2) : p < a0 * x0 + a1 * x1 + a2 * x2 := by
  have h := convex_lt h0 h1 h2 hs (neg_lt_neg hx0) (neg_lt_neg hx1) (neg_lt_neg hx2)
  linarith [h]

namespace W8

/-- Cramer identity of the Möller–Trumbore quantities: in exact arithmetic
the accepted point `O + t * D` is the barycentric combination of the three
vertices. -/
theorem tri_point_eq (ctx : Ctx) (O D : Vec3) (j : ℕ) (hq : triQ ctx D j ≠ 0) :
    O + triT ctx O D j • D =
      (1 - triBeta ctx O D j - triGamma ctx O D j) • vpos ctx (face ctx j).1 +
        triBeta ctx O D j • vpos ctx (face ctx j).2.1 +
        triGamma ctx O D j • vpos ctx (face ctx j).2.2.1 := by
  unfold triT triBeta triGamma triQ triN at *
  generalize vpos ctx (face ctx j).1 = v0 at hq ⊢
  generalize vpos ctx (face ctx j).2.1 = v1 at hq ⊢
  generalize vpos ctx (face ctx j).2.2.1 = v2 at hq ⊢
  rcases O with ⟨ox, oy, oz⟩
  rcases D with ⟨dx, dy, dz⟩
  rcases v0 with ⟨ax, ay, az⟩
  rcases v1 with ⟨bx, by', bz⟩
  rcases v2 with ⟨cx, cy, cz⟩
  simp only [Vec3.dot, Vec3.cross, Vec3.sub_x, Vec3.sub_y, Vec3.sub_z] at hq ⊢
  refine Vec3.ext_iff.mpr ⟨?_, ?_, ?_⟩ <;>
  · simp only [Vec3.add_x, Vec3.add_y, Vec3.add_z, Vec3.smul_x, Vec3.smul_y,
      Vec3.smul_z, Vec3.sub_x, Vec3.sub_y, Vec3.sub_z]
    field_simp
    ring

/-- The accepted hit point of a geometrically valid triangle lies strictly
inside every halfspace that strictly contains the triangle's vertices. -/
theorem triT_side (ctx : Ctx) (O D : Vec3) (j : ℕ) (hg : triGeomOK ctx O D j)
    (c : HS)
    (h0 : strictHS (vpos ctx (face ctx j).1) c = true)
    (h1 : strictHS (vpos ctx (face ctx j).2.1) c = true)
    (h2 : strictHS (vpos ctx (face ctx j).2.2.1) c = true) :
    strictHS (O + triT ctx O D j • D) c = true := by
  have hq := triQ_ne_zero hg
  have hpt := tri_point_eq ctx O D j hq
  have hcomp : Vec3.comp (O + triT ctx O D j • D) c.axis =
      (1 - triBeta ctx O D j - triGamma ctx O D j) *
          Vec3.comp (vpos ctx (face ctx j).1) c.axis +
        triBeta ctx O D j * Vec3.comp (vpos ctx (face ctx j).2.1) c.axis +
        triGamma ctx O D j * Vec3.comp (vpos ctx (face ctx j).2.2.1) c.axis := by
    rw [hpt]
    simp
  have ha0 : 0 ≤ 1 - triBeta ctx O D j - triGamma ctx O D j := by
    have := hg.2.2.2
    push_neg at this
    linarith
  have ha1 : 0 ≤ triBeta ctx O D j := not_lt.mp hg.2.1
  have ha2 : 0 ≤ triGamma ctx O D j := not_lt.mp hg.2.2.1
  have hsum : (1 - triBeta ctx O D j - triGamma ctx O D j) + triBeta ctx O D j +
      triGamma ctx O D j = 1 := by ring
  unfold strictHS at h0 h1 h2 ⊢
  by_cases hu : c.upper
  · rw [if_pos hu] at h0 h1 h2 ⊢
    rw [decide_eq_true_iff] at h0 h1 h2 ⊢
    rw [hcomp]
    exact convex_gt ha0 ha1 ha2 hsum h0 h1 h2
  · rw [if_neg hu] at h0 h1 h2 ⊢
    rw [decide_eq_true_iff] at h0 h1 h2 ⊢
    rw [hcomp]
    exact convex_lt ha0 ha1 ha2 hsum h0 h1 h2

end W8

namespace W8

/-- The triangle id list of a leaf: `count` entries of `treeIds` starting at
`pos`. -/
def idsFrom (ctx : Ctx) (pos count : ℕ) : List ℕ :=
  (List.range count).map (fun k => ctx.treeIds.getD (pos + k) 0)

theorem leafLoop_eq_foldTri (ctx : Ctx) (fns : Fns) : ∀ (count pos : ℕ) (r : Ray)
    (hit : HitInfo) (found : Bool),
    leafLoop ctx fns count pos r hit found =
      foldTri ctx fns (idsFrom ctx pos count) r hit found := by
  intro count
  induction count with
  | zero => intro pos r hit found; rfl
  | succ n ih =>
    intro pos r hit found
    have hids : idsFrom ctx pos (n + 1) =
        ctx.treeIds.getD pos 0 :: idsFrom ctx (pos + 1) n := by
      unfold idsFrom
      rw [List.range_succ_eq_map]
      simp only [List.map_cons, List.map_map, Nat.add_zero]
      refine congrArg _ ?_
      refine List.map_congr_left ?_
      intro k _
      simp only [Function.comp_apply]
      refine congrArg (fun m => ctx.treeIds.getD m 0) ?_
      omega
    rw [hids]
    simp only [leafLoop, foldTri]
    rcases h : intersect_triangle ctx fns r hit (ctx.treeIds.getD pos 0) with ⟨hit1, b⟩
    cases b
    · dsimp only
      exact ih (pos + 1) r hit1 found
    · dsimp only
      exact ih (pos + 1) { r with tmax := hit1.distance }
        { hit1 with triangle_idx := ctx.treeIds.getD pos 0 } true

/-- A candidate value of the scan: some listed triangle passes the geometric
test with plane parameter in the window, equal to `τ`. -/
def CandVal (ctx : Ctx) (O D : Vec3) (lo hi : ℚ) (S : List ℕ) (τ : ℚ) : Prop :=
  ∃ j ∈ S, triGeomOK ctx O D j ∧ lo ≤ triT ctx O D j ∧ triT ctx O D j ≤ hi ∧
    triT ctx O D j = τ

theorem foldTri_none (ctx : Ctx) (fns : Fns) : ∀ (S : List ℕ) (r : Ray)
    (hit : HitInfo) (found : Bool),
    (∀ j ∈ S, ¬ (triGeomOK ctx r.origin r.direction j ∧
      r.tmin ≤ triT ctx r.origin r.direction j ∧
      triT ctx r.origin r.direction j ≤ r.tmax)) →
    foldTri ctx fns S r hit found = (hit, r, found) := by
  intro S
  induction S with
  | nil => intro r hit found _; rfl
  | cons j rest ih =>
    intro r hit found hno
    unfold foldTri
    rw [intersect_triangle_spec, if_neg]
    · exact ih r hit found (fun j' hj' => hno j' (List.mem_cons_of_mem _ hj'))
    · intro hc
      exact hno j (List.mem_cons_self _ _)
        ⟨hc.1, not_lt.mp (not_or.mp hc.2).1, not_lt.mp (not_or.mp hc.2).2⟩

end W8

namespace W8

/-- Characterization of `foldTri` entered in the found state with the window
upper end carrying the recorded distance: the result stays found, the final
distance is the minimum of the carried distance and the candidate values,
and `tmax` tracks it. -/
theorem foldTri_cont (ctx : Ctx) (fns : Fns) : ∀ (S : List ℕ) (r : Ray)
    (hit : HitInfo), r.tmax = hit.distance →
    (foldTri ctx fns S r hit true).2.2 = true ∧
    (foldTri ctx fns S r hit true).1.distance ≤ hit.distance ∧
    ((foldTri ctx fns S r hit true).1.distance = hit.distance ∨
      CandVal ctx r.origin r.direction r.tmin r.tmax S
        (foldTri ctx fns S r hit true).1.distance) ∧
    (∀ j ∈ S, triGeomOK ctx r.origin r.direction j →
      r.tmin ≤ triT ctx r.origin r.direction j →
      triT ctx r.origin r.direction j ≤ r.tmax →
      (foldTri ctx fns S r hit true).1.distance ≤ triT ctx r.origin r.direction j) := by
  intro S
  induction S with
  | nil =>
    intro r hit hinv
    refine ⟨rfl, le_refl _, Or.inl rfl, ?_⟩
    intro j hj
    exact absurd hj (List.not_mem_nil j)
  | cons j rest ih =>
    intro r hit hinv
    simp only [foldTri]
    rw [intersect_triangle_spec]
    by_cases hc : triGeomOK ctx r.origin r.direction j ∧
        ¬ (triT ctx r.origin r.direction j < r.tmin ∨
          triT ctx r.origin r.direction j > r.tmax)
    · rw [if_pos hc]
      dsimp only
      have hwin := not_or.mp hc.2
      have hlo : r.tmin ≤ triT ctx r.origin r.direction j := not_lt.mp hwin.1
      have hhi : triT ctx r.origin r.direction j ≤ r.tmax := not_lt.mp hwin.2
      obtain ⟨ihf, ihle, ihmem, ihmin⟩ := ih
        { r with tmax := triT ctx r.origin r.direction j }
        { hit with
            has_hit := true
            position := r.origin + triT ctx r.origin r.direction j • r.direction
            distance := triT ctx r.origin r.direction j
            normal := triNrm ctx fns r.origin r.direction j
            triangle_idx := j } rfl
      refine ⟨ihf, ?_, ?_, ?_⟩
      · exact le_trans ihle (by rw [hinv] at hhi; exact hhi)
      · rcases ihmem with h | h
        · exact Or.inr ⟨j, List.mem_cons_self _ _, hc.1, hlo, hhi, h.symm ▸ rfl⟩
        · obtain ⟨j', hj', hg', hlo', hhi', hv'⟩ := h
          exact Or.inr ⟨j', List.mem_cons_of_mem _ hj', hg', hlo',
            le_trans hhi' hhi, hv'⟩
      · intro j' hj' hg' hlo' hhi'
        rcases List.mem_cons.mp hj' with rfl | hj'
        · exact ihle
        · by_cases hcmp : triT ctx r.origin r.direction j' ≤
              triT ctx r.origin r.direction j
          · exact ihmin j' hj' hg' hlo' hcmp
          · exact le_trans ihle (le_of_lt (not_le.mp hcmp))
    · rw [if_neg hc]
      dsimp only
      obtain ⟨ihf, ihle, ihmem, ihmin⟩ := ih r hit hinv
      refine ⟨ihf, ihle, ?_, ?_⟩
      · rcases ihmem with h | h
        · exact Or.inl h
        · obtain ⟨j', hj', rest'⟩ := h
          exact Or.inr ⟨j', List.mem_cons_of_mem _ hj', rest'⟩
      · intro j' hj' hg' hlo' hhi'
        rcases List.mem_cons.mp hj' with rfl | hj'
        · exact absurd ⟨hg', not_or.mpr ⟨not_lt.mpr hlo', not_lt.mpr hhi'⟩⟩ hc
        · exact ihmin j' hj' hg' hlo' hhi'

end W8

namespace W8

/-- Characterization of the linear triangle fold started in the not-found
state: it misses exactly when no listed triangle is a candidate in the entry
window (leaving ray and record untouched), and otherwise returns the least
candidate value as the recorded distance. -/
theorem foldTri_scan (ctx : Ctx) (fns : Fns) : ∀ (S : List ℕ) (r : Ray)
    (hit : HitInfo),
    ((foldTri ctx fns S r hit false).2.2 = false →
      foldTri ctx fns S r hit false = (hit, r, false) ∧
      ∀ j ∈ S, ¬ (triGeomOK ctx r.origin r.direction j ∧
        r.tmin ≤ triT ctx r.origin r.direction j ∧
        triT ctx r.origin r.direction j ≤ r.tmax)) ∧
    ((foldTri ctx fns S r hit false).2.2 = true →
      CandVal ctx r.origin r.direction r.tmin r.tmax S
        (foldTri ctx fns S r hit false).1.distance ∧
      (∀ j ∈ S, triGeomOK ctx r.origin r.direction j →
        r.tmin ≤ triT ctx r.origin r.direction j →
        triT ctx r.origin r.direction j ≤ r.tmax →
        (foldTri ctx fns S r hit false).1.distance ≤ triT ctx r.origin r.direction j)) := by
  intro S
  induction S with
  | nil =>
    intro r hit
    constructor
    · intro _
      exact ⟨rfl, fun j hj => absurd hj (List.not_mem_nil j)⟩
    · intro h
      exact absurd h (by simp [foldTri])
  | cons j rest ih =>
    intro r hit
    simp only [foldTri]
    rw [intersect_triangle_spec]
    by_cases hc : triGeomOK ctx r.origin r.direction j ∧
        ¬ (triT ctx r.origin r.direction j < r.tmin ∨
          triT ctx r.origin r.direction j > r.tmax)
    · rw [if_pos hc]
      dsimp only
      have hwin := not_or.mp hc.2
      have hlo : r.tmin ≤ triT ctx r.origin r.direction j := not_lt.mp hwin.1
      have hhi : triT ctx r.origin r.direction j ≤ r.tmax := not_lt.mp hwin.2
      obtain ⟨ihf, ihle, ihmem, ihmin⟩ := foldTri_cont ctx fns rest
        { r with tmax := triT ctx r.origin r.direction j }
        { hit with
            has_hit := true
            position := r.origin + triT ctx r.origin r.direction j • r.direction
            distance := triT ctx r.origin r.direction j
            normal := triNrm ctx fns r.origin r.direction j
            triangle_idx := j } rfl
      constructor
      · intro h
        rw [if_pos (rfl : (true : Bool) = true)] at h
        rw [ihf] at h
        cases h
      · intro _
        rw [if_pos (rfl : (true : Bool) = true)]
        constructor
        · rcases ihmem with h | h
          · exact ⟨j, List.mem_cons_self _ _, hc.1, hlo, hhi, h.symm⟩
          · obtain ⟨j', hj', hg', hlo', hhi', hv'⟩ := h
            exact ⟨j', List.mem_cons_of_mem _ hj', hg', hlo',
              le_trans hhi' hhi, hv'⟩
        · intro j' hj' hg' hlo' hhi'
          rcases List.mem_cons.mp hj' with rfl | hj'
          · exact ihle
          · by_cases hcmp : triT ctx r.origin r.direction j' ≤
                triT ctx r.origin r.direction j
            · exact ihmin j' hj' hg' hlo' hcmp
            · exact le_trans ihle (le_of_lt (not_le.mp hcmp))
    · rw [if_neg hc]
      dsimp only
      rw [if_neg (by decide : ¬ ((false : Bool) = true))]
      obtain ⟨ihn, ihy⟩ := ih r hit
      constructor
      · intro h
        obtain ⟨heq, hnone⟩ := ihn h
        refine ⟨heq, ?_⟩
        intro j' hj'
        rcases List.mem_cons.mp hj' with rfl | hj'
        · intro hcand
          exact hc ⟨hcand.1, not_or.mpr ⟨not_lt.mpr hcand.2.1, not_lt.mpr hcand.2.2⟩⟩
        · exact hnone j' hj'
      · intro h
        obtain ⟨hmem, hmin⟩ := ihy h
        constructor
        · obtain ⟨j', hj', rest'⟩ := hmem
          exact ⟨j', List.mem_cons_of_mem _ hj', rest'⟩
        · intro j' hj' hg' hlo' hhi'
          rcases List.mem_cons.mp hj' with rfl | hj'
          · exact (hc ⟨hg',
              not_or.mpr ⟨not_lt.mpr hlo', not_lt.mpr hhi'⟩⟩).elim
          · exact hmin j' hj' hg' hlo' hhi'

end W8

namespace W8

/-- The traversal's split parameter for a node plane on an axis. -/
def tsplit (O D : Vec3) (ax : ℕ) (p : ℚ) : ℚ :=
  (p - Vec3.comp O ax) / Vec3.comp D ax

/-- The near-side constraint of a split for direction `D`: the lower
halfspace when the axis direction is nonnegative, the upper one
otherwise. -/
def nearC (D : Vec3) (ax : ℕ) (p : ℚ) : HS := ⟨ax, p, decide (Vec3.comp D ax < 0)⟩

/-- The far-side constraint of a split for direction `D`. -/
def farC (D : Vec3) (ax : ℕ) (p : ℚ) : HS := ⟨ax, p, decide (0 ≤ Vec3.comp D ax)⟩

theorem memHS_nearC {O D : Vec3} {ax : ℕ} {p τ : ℚ} (hd : Vec3.comp D ax ≠ 0) :
    memHS (O + τ • D) (nearC D ax p) = true ↔ τ ≤ tsplit O D ax p := by
  unfold memHS nearC tsplit
  rcases lt_or_gt_of_ne hd with hneg | hpos
  · rw [if_pos (by simpa using hneg)]
    simp only [Vec3.comp_add, Vec3.comp_smul, decide_eq_true_iff]
    rw [le_div_iff_of_neg hneg]
    constructor <;> intro <;> nlinarith
  · rw [if_neg (by simpa using not_lt.mpr hpos.le)]
    simp only [Vec3.comp_add, Vec3.comp_smul, decide_eq_true_iff]
    rw [le_div_iff hpos]
    constructor <;> intro <;> nlinarith

theorem memHS_farC {O D : Vec3} {ax : ℕ} {p τ : ℚ} (hd : Vec3.comp D ax ≠ 0) :
    memHS (O + τ • D) (farC D ax p) = true ↔ tsplit O D ax p ≤ τ := by
  unfold memHS farC tsplit
  rcases lt_or_gt_of_ne hd with hneg | hpos
  · rw [if_neg (by simpa using not_le.mpr hneg)]
    simp only [Vec3.comp_add, Vec3.comp_smul, decide_eq_true_iff]
    rw [div_le_iff_of_neg hneg]
    constructor <;> intro <;> nlinarith
  · rw [if_pos (by simpa using hpos.le)]
    simp only [Vec3.comp_add, Vec3.comp_smul, decide_eq_true_iff]
    rw [div_le_iff hpos]
    constructor <;> intro <;> nlinarith

theorem strictHS_nearC {O D : Vec3} {ax : ℕ} {p τ : ℚ} (hd : Vec3.comp D ax ≠ 0) :
    strictHS (O + τ • D) (nearC D ax p) = true ↔ τ < tsplit O D ax p := by
  unfold strictHS nearC tsplit
  rcases lt_or_gt_of_ne hd with hneg | hpos
  · rw [if_pos (by simpa using hneg)]
    simp only [Vec3.comp_add, Vec3.comp_smul, decide_eq_true_iff]
    rw [lt_div_iff_of_neg hneg]
    constructor <;> intro <;> nlinarith
  · rw [if_neg (by simpa using not_lt.mpr hpos.le)]
    simp only [Vec3.comp_add, Vec3.comp_smul, decide_eq_true_iff]
    rw [lt_div_iff hpos]
    constructor <;> intro <;> nlinarith

theorem strictHS_farC {O D : Vec3} {ax : ℕ} {p τ : ℚ} (hd : Vec3.comp D ax ≠ 0) :
    strictHS (O + τ • D) (farC D ax p) = true ↔ tsplit O D ax p < τ := by
  unfold strictHS farC tsplit
  rcases lt_or_gt_of_ne hd with hneg | hpos
  · rw [if_neg (by simpa using not_le.mpr hneg)]
    simp only [Vec3.comp_add, Vec3.comp_smul, decide_eq_true_iff]
    rw [div_lt_iff_of_neg hneg]
    constructor <;> intro <;> nlinarith
  · rw [if_pos (by simpa using hpos.le)]
    simp only [Vec3.comp_add, Vec3.comp_smul, decide_eq_true_iff]
    rw [div_lt_iff hpos]
    constructor <;> intro <;> nlinarith

end W8

namespace W8

theorem tsel_eq {ctx : Ctx} {node : ℕ} {r : Ray} {O D : Vec3}
    (ho : r.origin = O) (hdn : r.direction = D) (hd : dirEps D)
    (hax : (ctx.bspTree.getD node (0, 0, 0, 0)).1 % 4 < 3) :
    tsel ctx node r =
      tsplit O D ((ctx.bspTree.getD node (0, 0, 0, 0)).1 % 4)
        (ctx.bspPlanes.getD node 0) := by
  unfold tsel denomSel tsplit
  rw [ho, hdn, if_neg (not_lt.mpr (dirEps_comp hd hax))]

theorem nearNode_eq {ctx : Ctx} {node : ℕ} {r : Ray} {D : Vec3}
    (hdn : r.direction = D) :
    nearNode ctx node r =
      if 0 ≤ Vec3.comp D ((ctx.bspTree.getD node (0, 0, 0, 0)).1 % 4) then
        (ctx.bspTree.getD node (0, 0, 0, 0)).2.2.1
      else (ctx.bspTree.getD node (0, 0, 0, 0)).2.2.2 := by
  unfold nearNode
  rw [hdn]

theorem farNode_eq {ctx : Ctx} {node : ℕ} {r : Ray} {D : Vec3}
    (hdn : r.direction = D) :
    farNode ctx node r =
      if 0 ≤ Vec3.comp D ((ctx.bspTree.getD node (0, 0, 0, 0)).1 % 4) then
        (ctx.bspTree.getD node (0, 0, 0, 0)).2.2.2
      else (ctx.bspTree.getD node (0, 0, 0, 0)).2.2.1 := by
  unfold farNode
  rw [hdn]

theorem listedIn_mem {ctx : Ctx} {j : ℕ} {tn : ℕ × ℕ × ℕ × ℕ}
    (h : listedIn ctx j tn = true) : j ∈ idsFrom ctx tn.2.1 (tn.1 / 4) := by
  unfold listedIn at h
  rw [List.any_eq_true] at h
  obtain ⟨k, hk, he⟩ := h
  rw [beq_iff_eq] at he
  unfold idsFrom
  exact List.mem_map.mpr ⟨k, hk, he⟩

theorem wfNode_nearfar {ctx : Ctx} {b node : ℕ} {D : Vec3}
    (h : wfNode ctx (b + 1) node = true)
    (hn : (ctx.bspTree.getD node (0, 0, 0, 0)).1 % 4 ≠ 3) :
    wfNode ctx b
        (if 0 ≤ Vec3.comp D ((ctx.bspTree.getD node (0, 0, 0, 0)).1 % 4) then
          (ctx.bspTree.getD node (0, 0, 0, 0)).2.2.1
        else (ctx.bspTree.getD node (0, 0, 0, 0)).2.2.2) = true ∧
      wfNode ctx b
        (if 0 ≤ Vec3.comp D ((ctx.bspTree.getD node (0, 0, 0, 0)).1 % 4) then
          (ctx.bspTree.getD node (0, 0, 0, 0)).2.2.2
        else (ctx.bspTree.getD node (0, 0, 0, 0)).2.2.1) = true := by
  obtain ⟨b', hb', hz, hw⟩ := wfNode_internal h hn
  have hb : b' = b := Nat.succ_injective hb'.symm
  subst hb
  constructor <;> split
  · exact hz
  · exact hw
  · exact hw
  · exact hz

theorem covered_nearfar {ctx : Ctx} {j b node : ℕ} {R : Region} (D : Vec3)
    (h : covered ctx j (b + 1) node R = true)
    (hn : (ctx.bspTree.getD node (0, 0, 0, 0)).1 % 4 ≠ 3) :
    covered ctx j b
        (if 0 ≤ Vec3.comp D ((ctx.bspTree.getD node (0, 0, 0, 0)).1 % 4) then
          (ctx.bspTree.getD node (0, 0, 0, 0)).2.2.1
        else (ctx.bspTree.getD node (0, 0, 0, 0)).2.2.2)
        (nearC D ((ctx.bspTree.getD node (0, 0, 0, 0)).1 % 4)
          (ctx.bspPlanes.getD node 0) :: R) = true ∨
      covered ctx j b
        (if 0 ≤ Vec3.comp D ((ctx.bspTree.getD node (0, 0, 0, 0)).1 % 4) then
          (ctx.bspTree.getD node (0, 0, 0, 0)).2.2.2
        else (ctx.bspTree.getD node (0, 0, 0, 0)).2.2.1)
        (farC D ((ctx.bspTree.getD node (0, 0, 0, 0)).1 % 4)
          (ctx.bspPlanes.getD node 0) :: R) = true := by
  obtain ⟨b', hb', hzw⟩ := covered_internal h hn
  have hb : b' = b := Nat.succ_injective hb'.symm
  subst hb
  by_cases hsgn : 0 ≤ Vec3.comp D ((ctx.bspTree.getD node (0, 0, 0, 0)).1 % 4)
  · have hnear : nearC D ((ctx.bspTree.getD node (0, 0, 0, 0)).1 % 4)
        (ctx.bspPlanes.getD node 0) =
        ⟨(ctx.bspTree.getD node (0, 0, 0, 0)).1 % 4,
          ctx.bspPlanes.getD node 0, false⟩ := by
      unfold nearC
      rw [decide_eq_false (not_lt.mpr hsgn)]
    have hfar : farC D ((ctx.bspTree.getD node (0, 0, 0, 0)).1 % 4)
        (ctx.bspPlanes.getD node 0) =
        ⟨(ctx.bspTree.getD node (0, 0, 0, 0)).1 % 4,
          ctx.bspPlanes.getD node 0, true⟩ := by
      unfold farC
      rw [decide_eq_true hsgn]
    rw [if_pos hsgn, if_pos hsgn, hnear, hfar]
    exact hzw
  · have hnear : nearC D ((ctx.bspTree.getD node (0, 0, 0, 0)).1 % 4)
        (ctx.bspPlanes.getD node 0) =
        ⟨(ctx.bspTree.getD node (0, 0, 0, 0)).1 % 4,
          ctx.bspPlanes.getD node 0, true⟩ := by
      unfold nearC
      rw [decide_eq_true (not_le.mp hsgn)]
    have hfar : farC D ((ctx.bspTree.getD node (0, 0, 0, 0)).1 % 4)
        (ctx.bspPlanes.getD node 0) =
        ⟨(ctx.bspTree.getD node (0, 0, 0, 0)).1 % 4,
          ctx.bspPlanes.getD node 0, false⟩ := by
      unfold farC
      rw [decide_eq_false hsgn]
    rw [if_neg hsgn, if_neg hsgn, hnear, hfar]
    exact hzw.symm

end W8

namespace W8

/-- The interval characterization tying a traversal window `[lo, hi]` to a
cell `R`: the window holds exactly the parameters of the original window
`[lo0, hi0]` whose ray points lie in the cell. -/
def IChar (O D : Vec3) (lo0 hi0 : ℚ) (R : Region) (lo hi : ℚ) : Prop :=
  ∀ τ : ℚ, (lo ≤ τ ∧ τ ≤ hi) ↔
    (lo0 ≤ τ ∧ τ ≤ hi0 ∧ memR (O + τ • D) R = true)

theorem IChar_nil (O D : Vec3) (lo0 hi0 : ℚ) : IChar O D lo0 hi0 [] lo0 hi0 := by
  intro τ
  unfold memR
  simp

theorem IChar_cons_near {O D : Vec3} {lo0 hi0 lo hi p : ℚ} {ax : ℕ} {R : Region}
    (hd : Vec3.comp D ax ≠ 0) (hic : IChar O D lo0 hi0 R lo hi)
    (hts : hi ≤ tsplit O D ax p) :
    IChar O D lo0 hi0 (nearC D ax p :: R) lo hi := by
  intro τ
  constructor
  · intro hτ
    obtain ⟨h1, h2, h3⟩ := (hic τ).mp hτ
    refine ⟨h1, h2, ?_⟩
    unfold memR at h3 ⊢
    rw [List.all_cons, Bool.and_eq_true]
    exact ⟨(memHS_nearC hd).mpr (le_trans hτ.2 hts), h3⟩
  · intro hτ
    obtain ⟨h1, h2, h3⟩ := hτ
    unfold memR at h3
    rw [List.all_cons, Bool.and_eq_true] at h3
    exact (hic τ).mpr ⟨h1, h2, h3.2⟩

theorem IChar_cons_far {O D : Vec3} {lo0 hi0 lo hi p : ℚ} {ax : ℕ} {R : Region}
    (hd : Vec3.comp D ax ≠ 0) (hic : IChar O D lo0 hi0 R lo hi)
    (hts : tsplit O D ax p ≤ lo) :
    IChar O D lo0 hi0 (farC D ax p :: R) lo hi := by
  intro τ
  constructor
  · intro hτ
    obtain ⟨h1, h2, h3⟩ := (hic τ).mp hτ
    refine ⟨h1, h2, ?_⟩
    unfold memR at h3 ⊢
    rw [List.all_cons, Bool.and_eq_true]
    exact ⟨(memHS_farC hd).mpr (le_trans hts hτ.1), h3⟩
  · intro hτ
    obtain ⟨h1, h2, h3⟩ := hτ
    unfold memR at h3
    rw [List.all_cons, Bool.and_eq_true] at h3
    exact (hic τ).mpr ⟨h1, h2, h3.2⟩

theorem IChar_trunc_near {O D : Vec3} {lo0 hi0 lo hi p : ℚ} {ax : ℕ} {R : Region}
    (hd : Vec3.comp D ax ≠ 0) (hic : IChar O D lo0 hi0 R lo hi)
    (hts : tsplit O D ax p ≤ hi) :
    IChar O D lo0 hi0 (nearC D ax p :: R) lo (tsplit O D ax p) := by
  intro τ
  constructor
  · intro hτ
    obtain ⟨h1, h2, h3⟩ := (hic τ).mp ⟨hτ.1, le_trans hτ.2 hts⟩
    refine ⟨h1, h2, ?_⟩
    unfold memR at h3 ⊢
    rw [List.all_cons, Bool.and_eq_true]
    exact ⟨(memHS_nearC hd).mpr hτ.2, h3⟩
  · intro hτ
    obtain ⟨h1, h2, h3⟩ := hτ
    unfold memR at h3
    rw [List.all_cons, Bool.and_eq_true] at h3
    exact ⟨((hic τ).mpr ⟨h1, h2, h3.2⟩).1, (memHS_nearC hd).mp h3.1⟩

theorem IChar_trunc_far {O D : Vec3} {lo0 hi0 lo hi p : ℚ} {ax : ℕ} {R : Region}
    (hd : Vec3.comp D ax ≠ 0) (hic : IChar O D lo0 hi0 R lo hi)
    (hts : lo ≤ tsplit O D ax p) :
    IChar O D lo0 hi0 (farC D ax p :: R) (tsplit O D ax p) hi := by
  intro τ
  constructor
  · intro hτ
    obtain ⟨h1, h2, h3⟩ := (hic τ).mp ⟨le_trans hts hτ.1, hτ.2⟩
    refine ⟨h1, h2, ?_⟩
    unfold memR at h3 ⊢
    rw [List.all_cons, Bool.and_eq_true]
    exact ⟨(memHS_farC hd).mpr hτ.1, h3⟩
  · intro hτ
    obtain ⟨h1, h2, h3⟩ := hτ
    unfold memR at h3
    rw [List.all_cons, Bool.and_eq_true] at h3
    exact ⟨(memHS_farC hd).mp h3.1, ((hic τ).mpr ⟨h1, h2, h3.2⟩).2⟩

/-- The termination measure of the traversal loop: exponential in the
remaining depth budget of the current node and of every stacked node, plus a
linear tail in the loop counter. -/
def nu (i lvl : ℕ) (bn : ℕ → ℕ × ℕ) : ℕ :=
  64 * (2 ^ (22 - i) + ∑ k ∈ Finset.range lvl, 2 ^ (21 - (bn k).1)) + (21 - i)

theorem nu_step {i lvl : ℕ} {bn : ℕ → ℕ × ℕ} (hi : i ≤ 20) :
    nu (i + 1) lvl bn < nu i lvl bn := by
  unfold nu
  have h22 : 2 ^ (22 - i) = 2 * 2 ^ (22 - (i + 1)) := by
    rw [show 22 - i = (22 - (i + 1)) + 1 by omega, pow_succ]
    ring
  have hm : 1 ≤ 2 ^ (22 - (i + 1)) := Nat.one_le_two_pow
  omega

theorem nu_push {i lvl : ℕ} {bn : ℕ → ℕ × ℕ} {far : ℕ} (hi : i ≤ 20) :
    nu (i + 1) (lvl + 1) (upd bn lvl (i, far)) < nu i lvl bn := by
  unfold nu
  rw [Finset.sum_range_succ]
  have hS : ∑ k ∈ Finset.range lvl, 2 ^ (21 - (upd bn lvl (i, far) k).1) =
      ∑ k ∈ Finset.range lvl, 2 ^ (21 - (bn k).1) := by
    refine Finset.sum_congr rfl ?_
    intro k hk
    unfold upd
    rw [if_neg (Nat.ne_of_lt (Finset.mem_range.mp hk))]
  rw [hS]
  have htop : (upd bn lvl (i, far) lvl).1 = i := by
    unfold upd
    rw [if_pos rfl]
  rw [htop]
  have h22 : 2 ^ (22 - i) = 2 ^ (22 - (i + 1)) + 2 ^ (21 - i) := by
    rw [show 22 - i = (21 - i) + 1 by omega, show 22 - (i + 1) = 21 - i by omega,
      pow_succ]
    ring
  omega

theorem nu_pop {i lvl : ℕ} {bn : ℕ → ℕ × ℕ} (hs : (bn lvl).1 + 1 ≤ 20) :
    nu ((bn lvl).1 + 1) lvl bn < nu i (lvl + 1) bn := by
  unfold nu
  rw [Finset.sum_range_succ]
  have h22 : 2 ^ (22 - ((bn lvl).1 + 1)) = 2 ^ (21 - (bn lvl).1) := by
    rw [show 22 - ((bn lvl).1 + 1) = 21 - (bn lvl).1 by omega]
  have hm : 1 ≤ 2 ^ (22 - i) := Nat.one_le_two_pow
  omega

/-- The loop invariant of the BSP traversal: the ray carries the original
origin and direction; no hit has been recorded yet; the loop counter is in
range; the current node and every stacked node are well formed within the
remaining depth budget; every window on the stack starts at or after the
current window's end and the stacked windows are mutually ordered; and there
are cells characterizing the current and stacked windows such that every
globally valid triangle is covered by the current subtree or by a stacked
one, with its parameter inside that entry's window. -/
structure Inv (ctx : Ctx) (O D : Vec3) (lo0 hi0 : ℚ) (hit0 : HitInfo)
    (i node lvl : ℕ) (bn : ℕ → ℕ × ℕ) (br : ℕ → ℚ × ℚ) (r : Ray)
    (hit : HitInfo) : Prop where
  horig : r.origin = O
  hdirn : r.direction = D
  hhit : hit = hit0
  hi20 : i ≤ 20
  hwf : wfNode ctx (20 - i) node = true
  hstk : ∀ k, k < lvl → (bn k).1 + 1 ≤ 20 ∧
    wfNode ctx (20 - ((bn k).1 + 1)) (bn k).2 = true
  hord1 : ∀ k, k < lvl → r.tmax ≤ (br k).1
  hord2 : ∀ k k', k' < k → k < lvl → (br k).2 ≤ (br k').1
  hreg : ∃ (Rc : Region) (Rs : ℕ → Region),
    IChar O D lo0 hi0 Rc r.tmin r.tmax ∧
    (∀ k, k < lvl → IChar O D lo0 hi0 (Rs k) (br k).1 (br k).2) ∧
    ∀ j, GV ctx O D lo0 hi0 j →
      (covered ctx j (20 - i) node Rc = true ∧ r.tmin ≤ triT ctx O D j ∧
        triT ctx O D j ≤ r.tmax) ∨
      ∃ k, k < lvl ∧
        covered ctx j (20 - ((bn k).1 + 1)) (bn k).2 (Rs k) = true ∧
        (br k).1 ≤ triT ctx O D j ∧ triT ctx O D j ≤ (br k).2

end W8

theorem upd_self {α : Type} (f : ℕ → α) (k : ℕ) (v : α) : upd f k v k = v := by
  unfold upd
  rw [if_pos rfl]

theorem upd_other {α : Type} (f : ℕ → α) (k n : ℕ) (v : α) (h : n ≠ k) :
    upd f k v n = f n := by
  unfold upd
  rw [if_neg h]

namespace W8

/-- Correctness of the traversal loop under the invariant: with enough fuel,
the loop reports a hit exactly when some globally valid triangle exists, and
then records the least valid plane parameter as the distance. -/
theorem trimeshGo_correct (ctx : Ctx) (fns : Fns) (O D : Vec3) (lo0 hi0 : ℚ)
    (hd : dirEps D) : ∀ (fuel i node lvl : ℕ) (bn : ℕ → ℕ × ℕ)
    (br : ℕ → ℚ × ℚ) (r : Ray) (hit : HitInfo),
    Inv ctx O D lo0 hi0 default_hitinfo i node lvl bn br r hit →
    nu i lvl bn < fuel →
    ((trimeshGo ctx fns fuel i node lvl bn br r hit).2.2 = true →
      (∃ j, GV ctx O D lo0 hi0 j ∧
        triT ctx O D j =
          (trimeshGo ctx fns fuel i node lvl bn br r hit).1.distance) ∧
      ∀ j, GV ctx O D lo0 hi0 j →
        (trimeshGo ctx fns fuel i node lvl bn br r hit).1.distance ≤
          triT ctx O D j) ∧
    ((trimeshGo ctx fns fuel i node lvl bn br r hit).2.2 = false →
      (trimeshGo ctx fns fuel i node lvl bn br r hit).1 = default_hitinfo ∧
      ∀ j, ¬ GV ctx O D lo0 hi0 j) := by
  intro fuel
  induction fuel with
  | zero =>
    intro i node lvl bn br r hit _ hfuel
    exact absurd hfuel (Nat.not_lt_zero _)
  | succ f ih =>
    intro i node lvl bn br r hit inv hfuel
    have hfu : nu i lvl bn ≤ f := Nat.lt_succ_iff.mp hfuel
    obtain ⟨Rc, Rs, hic, hics, hcomp⟩ := inv.hreg
    simp only [trimeshGo]
    rw [if_neg (not_lt.mpr inv.hi20)]
    by_cases hleaf : (ctx.bspTree.getD node (0, 0, 0, 0)).1 % 4 = 3
    · rw [if_pos hleaf]
      rcases hLL : leafLoop ctx fns ((ctx.bspTree.getD node (0, 0, 0, 0)).1 / 4)
          (ctx.bspTree.getD node (0, 0, 0, 0)).2.1 r hit false with ⟨hit1, r1, found⟩
      have hfold : foldTri ctx fns
          (idsFrom ctx (ctx.bspTree.getD node (0, 0, 0, 0)).2.1
            ((ctx.bspTree.getD node (0, 0, 0, 0)).1 / 4)) r hit false =
          (hit1, r1, found) := by
        rw [← leafLoop_eq_foldTri]
        exact hLL
      obtain ⟨scanF, scanT⟩ := foldTri_scan ctx fns
        (idsFrom ctx (ctx.bspTree.getD node (0, 0, 0, 0)).2.1
          ((ctx.bspTree.getD node (0, 0, 0, 0)).1 / 4)) r hit
      rw [hfold] at scanF scanT
      dsimp only at scanF scanT ⊢
      cases found with
      | true =>
        rw [if_pos (rfl : (true : Bool) = true)]
        obtain ⟨hcv, hmin⟩ := scanT rfl
        rw [inv.horig, inv.hdirn] at hcv hmin
        dsimp only
        constructor
        · intro _
          obtain ⟨j, hjmem, hg, hlo, hhi, hval⟩ := hcv
          have hjlen : j < ctx.meshFaces.length := by
            by_contra hc
            exact triGeomOK_oob (not_lt.mp hc) hg
          obtain ⟨h1, h2, _⟩ := (hic (triT ctx O D j)).mp ⟨hlo, hhi⟩
          refine ⟨⟨j, ⟨hjlen, hg, h1, h2⟩, hval⟩, ?_⟩
          intro j' hgv'
          rcases hcomp j' hgv' with ⟨hcov, hlo', hhi'⟩ | ⟨k, hk, _, hlo', _⟩
          · obtain ⟨hlist, _⟩ := covered_leaf hcov hleaf
            exact hmin j' (listedIn_mem hlist) hgv'.2.1 hlo' hhi'
          · have hda : hit1.distance ≤ r.tmax := hval ▸ hhi
            have hstk1 := inv.hord1 k hk
            linarith
        · intro hcon
          exact Bool.noConfusion hcon
      | false =>
        rw [if_neg (by decide : ¬ ((false : Bool) = true))]
        obtain ⟨heq, hnone⟩ := scanF rfl
        have hh1 : hit1 = hit := congrArg Prod.fst heq
        have hr1 : r1 = r := congrArg (fun p => p.2.1) heq
        rw [inv.horig, inv.hdirn] at hnone
        by_cases hlvl : lvl = 0
        · rw [if_pos hlvl]
          dsimp only
          constructor
          · intro hcon
            exact Bool.noConfusion hcon
          · intro _
            refine ⟨by rw [hh1, inv.hhit], ?_⟩
            intro j hgv
            rcases hcomp j hgv with ⟨hcov, hlo', hhi'⟩ | ⟨k, hk, _⟩
            · obtain ⟨hlist, _⟩ := covered_leaf hcov hleaf
              exact hnone j (listedIn_mem hlist) ⟨hgv.2.1, hlo', hhi'⟩
            · rw [hlvl] at hk
              exact absurd hk (Nat.not_lt_zero k)
        · rw [if_neg hlvl]
          obtain ⟨l, rfl⟩ : ∃ l, lvl = l + 1 :=
            ⟨lvl - 1, (Nat.succ_pred_eq_of_pos (Nat.pos_of_ne_zero hlvl)).symm⟩
          simp only [Nat.add_sub_cancel]
          have hsl := inv.hstk l (Nat.lt_succ_self l)
          refine ih _ _ _ _ _ _ _
            ⟨by rw [hr1]; exact inv.horig, by rw [hr1]; exact inv.hdirn,
              by rw [hh1]; exact inv.hhit, hsl.1, hsl.2,
              fun k hk => inv.hstk k (hk.trans (Nat.lt_succ_self l)),
              fun k hk => inv.hord2 l k hk (Nat.lt_succ_self l),
              fun k k' h1 h2 => inv.hord2 k k' h1 (h2.trans (Nat.lt_succ_self l)),
              ?_⟩
            (lt_of_lt_of_le (nu_pop hsl.1) hfu)
          · refine ⟨Rs l, Rs, hics l (Nat.lt_succ_self l),
              fun k hk => hics k (hk.trans (Nat.lt_succ_self l)), ?_⟩
            intro j hgv
            rcases hcomp j hgv with ⟨hcov, hlo', hhi'⟩ | ⟨k, hk, hcov, hlo', hhi'⟩
            · obtain ⟨hlist, _⟩ := covered_leaf hcov hleaf
              exact absurd ⟨hgv.2.1, hlo', hhi'⟩ (hnone j (listedIn_mem hlist))
            · rcases Nat.lt_succ_iff_lt_or_eq.mp hk with hk' | rfl
              · exact Or.inr ⟨k, hk', hcov, hlo', hhi'⟩
              · exact Or.inl ⟨hcov, hlo', hhi'⟩
    · rw [if_neg hleaf]
      have hax : (ctx.bspTree.getD node (0, 0, 0, 0)).1 % 4 < 3 := by
        have h4 : (ctx.bspTree.getD node (0, 0, 0, 0)).1 % 4 < 4 :=
          Nat.mod_lt _ (by norm_num)
        omega
      have hdax : Vec3.comp D ((ctx.bspTree.getD node (0, 0, 0, 0)).1 % 4) ≠ 0 := by
        intro h0
        have habs := dirEps_comp hd hax
        rw [h0] at habs
        norm_num at habs
      have hts := tsel_eq inv.horig inv.hdirn hd hax
      rw [hts]
      obtain ⟨b', hb', hwz, hww⟩ := wfNode_internal inv.hwf hleaf
      have hi19 : i ≤ 19 := by omega
      have hb2 : 20 - (i + 1) = b' := by omega
      have hwfb : wfNode ctx (b' + 1) node = true := by
        rw [← hb']
        exact inv.hwf
      have hwfnf := @wfNode_nearfar ctx b' node D hwfb hleaf
      by_cases hge : tsplit O D ((ctx.bspTree.getD node (0, 0, 0, 0)).1 % 4)
          (ctx.bspPlanes.getD node 0) ≥ r.tmax
      · rw [if_pos hge]
        refine ih _ _ _ _ _ _ _
          ⟨inv.horig, inv.hdirn, inv.hhit, by omega, ?_, inv.hstk, inv.hord1,
            inv.hord2, ?_⟩
          (lt_of_lt_of_le (nu_step inv.hi20) hfu)
        · rw [nearNode_eq inv.hdirn, hb2]
          exact hwfnf.1
        · refine ⟨nearC D ((ctx.bspTree.getD node (0, 0, 0, 0)).1 % 4)
              (ctx.bspPlanes.getD node 0) :: Rc, Rs,
            IChar_cons_near hdax hic hge, hics, ?_⟩
          intro j hgv
          rcases hcomp j hgv with ⟨hcov, hlo', hhi'⟩ | hstk'
          · have hcovb : covered ctx j (b' + 1) node Rc = true := by
              rw [← hb']
              exact hcov
            rcases covered_nearfar D hcovb hleaf with hnear | hfar
            · refine Or.inl ⟨?_, hlo', hhi'⟩
              rw [nearNode_eq inv.hdirn, hb2]
              exact hnear
            · exfalso
              obtain ⟨hs0, hs1, hs2⟩ := covered_strict hfar
                (farC D ((ctx.bspTree.getD node (0, 0, 0, 0)).1 % 4)
                  (ctx.bspPlanes.getD node 0)) (List.mem_cons_self _ _)
              have hside := triT_side ctx O D j hgv.2.1 _ hs0 hs1 hs2
              have hlt := (strictHS_farC hdax).mp hside
              linarith
          · exact Or.inr hstk'
      · rw [if_neg hge]
        by_cases hle : tsplit O D ((ctx.bspTree.getD node (0, 0, 0, 0)).1 % 4)
            (ctx.bspPlanes.getD node 0) ≤ r.tmin
        · rw [if_pos hle]
          refine ih _ _ _ _ _ _ _
            ⟨inv.horig, inv.hdirn, inv.hhit, by omega, ?_, inv.hstk, inv.hord1,
              inv.hord2, ?_⟩
            (lt_of_lt_of_le (nu_step inv.hi20) hfu)
          · rw [farNode_eq inv.hdirn, hb2]
            exact hwfnf.2
          · refine ⟨farC D ((ctx.bspTree.getD node (0, 0, 0, 0)).1 % 4)
                (ctx.bspPlanes.getD node 0) :: Rc, Rs,
              IChar_cons_far hdax hic hle, hics, ?_⟩
            intro j hgv
            rcases hcomp j hgv with ⟨hcov, hlo', hhi'⟩ | hstk'
            · have hcovb : covered ctx j (b' + 1) node Rc = true := by
                rw [← hb']
                exact hcov
              rcases covered_nearfar D hcovb hleaf with hnear | hfar
              · exfalso
                obtain ⟨hs0, hs1, hs2⟩ := covered_strict hnear
                  (nearC D ((ctx.bspTree.getD node (0, 0, 0, 0)).1 % 4)
                    (ctx.bspPlanes.getD node 0)) (List.mem_cons_self _ _)
                have hside := triT_side ctx O D j hgv.2.1 _ hs0 hs1 hs2
                have hlt := (strictHS_nearC hdax).mp hside
                linarith
              · refine Or.inl ⟨?_, hlo', hhi'⟩
                rw [farNode_eq inv.hdirn, hb2]
                exact hfar
            · exact Or.inr hstk'
        · rw [if_neg hle]
          have hlt1 : tsplit O D ((ctx.bspTree.getD node (0, 0, 0, 0)).1 % 4)
              (ctx.bspPlanes.getD node 0) < r.tmax := lt_of_not_ge hge
          have hlt2 : r.tmin < tsplit O D ((ctx.bspTree.getD node (0, 0, 0, 0)).1 % 4)
              (ctx.bspPlanes.getD node 0) := not_le.mp hle
          refine ih _ _ _ _ _ _ _
            ⟨inv.horig, inv.hdirn, inv.hhit, by omega, ?_, ?_, ?_, ?_, ?_⟩
            (lt_of_lt_of_le (nu_push inv.hi20) hfu)
          · rw [nearNode_eq inv.hdirn, hb2]
            exact hwfnf.1
          · intro k hk
            rcases Nat.lt_succ_iff_lt_or_eq.mp hk with hk' | rfl
            · rw [upd_other _ _ _ _ (Nat.ne_of_lt hk')]
              exact inv.hstk k hk'
            · rw [upd_self]
              refine ⟨by omega, ?_⟩
              dsimp only
              rw [farNode_eq inv.hdirn, hb2]
              exact hwfnf.2
          · intro k hk
            rcases Nat.lt_succ_iff_lt_or_eq.mp hk with hk' | rfl
            · rw [upd_other _ _ _ _ (Nat.ne_of_lt hk')]
              exact le_trans hlt1.le (inv.hord1 k hk')
            · rw [upd_self]
          · intro k k' h1 h2
            rcases Nat.lt_succ_iff_lt_or_eq.mp h2 with hk2 | rfl
            · rw [upd_other _ _ _ _ (Nat.ne_of_lt hk2),
                upd_other _ _ _ _ (Nat.ne_of_lt (h1.trans hk2))]
              exact inv.hord2 k k' h1 hk2
            · rw [upd_self, upd_other _ _ _ _ (Nat.ne_of_lt h1)]
              exact inv.hord1 k' h1
          · refine ⟨nearC D ((ctx.bspTree.getD node (0, 0, 0, 0)).1 % 4)
                (ctx.bspPlanes.getD node 0) :: Rc,
              fun k => if k = lvl then
                farC D ((ctx.bspTree.getD node (0, 0, 0, 0)).1 % 4)
                  (ctx.bspPlanes.getD node 0) :: Rc
              else Rs k, IChar_trunc_near hdax hic hlt1.le, ?_, ?_⟩
            · intro k hk
              dsimp only
              rcases Nat.lt_succ_iff_lt_or_eq.mp hk with hk' | rfl
              · rw [upd_other _ _ _ _ (Nat.ne_of_lt hk'),
                  if_neg (Nat.ne_of_lt hk')]
                exact hics k hk'
              · rw [upd_self, if_pos rfl]
                exact IChar_trunc_far hdax hic hlt2.le
            · intro j hgv
              rcases hcomp j hgv with ⟨hcov, hlo', hhi'⟩ | ⟨k, hk, hcov, hlo', hhi'⟩
              · have hcovb : covered ctx j (b' + 1) node Rc = true := by
                  rw [← hb']
                  exact hcov
                rcases covered_nearfar D hcovb hleaf with hnear | hfar
                · refine Or.inl ⟨?_, hlo', ?_⟩
                  · rw [nearNode_eq inv.hdirn, hb2]
                    exact hnear
                  · obtain ⟨hs0, hs1, hs2⟩ := covered_strict hnear
                      (nearC D ((ctx.bspTree.getD node (0, 0, 0, 0)).1 % 4)
                        (ctx.bspPlanes.getD node 0)) (List.mem_cons_self _ _)
                    have hside := triT_side ctx O D j hgv.2.1 _ hs0 hs1 hs2
                    exact ((strictHS_nearC hdax).mp hside).le
                · refine Or.inr ⟨lvl, Nat.lt_succ_self lvl, ?_, ?_, ?_⟩
                  · rw [upd_self]
                    dsimp only
                    rw [if_pos rfl, farNode_eq inv.hdirn, hb2]
                    exact hfar
                  · rw [upd_self]
                    obtain ⟨hs0, hs1, hs2⟩ := covered_strict hfar
                      (farC D ((ctx.bspTree.getD node (0, 0, 0, 0)).1 % 4)
                        (ctx.bspPlanes.getD node 0)) (List.mem_cons_self _ _)
                    have hside := triT_side ctx O D j hgv.2.1 _ hs0 hs1 hs2
                    exact ((strictHS_farC hdax).mp hside).le
                  · rw [upd_self]
                    exact hhi'
              · refine Or.inr ⟨k, hk.trans (Nat.lt_succ_self lvl), ?_, ?_, ?_⟩
                · rw [upd_other _ _ _ _ (Nat.ne_of_lt hk)]
                  dsimp only
                  rw [if_neg (Nat.ne_of_lt hk)]
                  exact hcov
                · rw [upd_other _ _ _ _ (Nat.ne_of_lt hk)]
                  exact hlo'
                · rw [upd_other _ _ _ _ (Nat.ne_of_lt hk)]
                  exact hhi'

end W8

namespace W8

/-- Characterization of the reference brute-force scan: it misses exactly
when no globally valid triangle exists, and otherwise returns the least
valid plane parameter as the recorded distance. -/
theorem linear_scan_spec (ctx : Ctx) (fns : Fns) (r : Ray) (hit : HitInfo) :
    ((linear_scan ctx fns r hit).2.2 = false →
      linear_scan ctx fns r hit = (hit, r, false) ∧
      ∀ j, ¬ GV ctx r.origin r.direction r.tmin r.tmax j) ∧
    ((linear_scan ctx fns r hit).2.2 = true →
      (∃ j, GV ctx r.origin r.direction r.tmin r.tmax j ∧
        triT ctx r.origin r.direction j =
          (linear_scan ctx fns r hit).1.distance) ∧
      ∀ j, GV ctx r.origin r.direction r.tmin r.tmax j →
        (linear_scan ctx fns r hit).1.distance ≤
          triT ctx r.origin r.direction j) := by
  unfold linear_scan
  obtain ⟨scanF, scanT⟩ := foldTri_scan ctx fns (List.range ctx.meshFaces.length)
    r hit
  constructor
  · intro h
    obtain ⟨heq, hnone⟩ := scanF h
    refine ⟨heq, ?_⟩
    intro j hgv
    exact hnone j (List.mem_range.mpr hgv.1) ⟨hgv.2.1, hgv.2.2.1, hgv.2.2.2⟩
  · intro h
    obtain ⟨hcv, hmin⟩ := scanT h
    constructor
    · obtain ⟨j, hjmem, hg, hlo, hhi, hval⟩ := hcv
      exact ⟨j, ⟨List.mem_range.mp hjmem, hg, hlo, hhi⟩, hval⟩
    · intro j hgv
      exact hmin j (List.mem_range.mpr hgv.1) hgv.2.1 hgv.2.2.1 hgv.2.2.2

/-- Correctness of the canonical traversal entry point under
well-formedness: same found/miss law as the loop. -/
theorem intersect_trimesh_correct (ctx : Ctx) (fns : Fns) (r : Ray)
    (hwf : wellFormed ctx = true) (hd : dirEps r.direction) :
    ((intersect_trimesh ctx fns r default_hitinfo).2.2 = true →
      (∃ j, GV ctx r.origin r.direction r.tmin r.tmax j ∧
        triT ctx r.origin r.direction j =
          (intersect_trimesh ctx fns r default_hitinfo).1.distance) ∧
      ∀ j, GV ctx r.origin r.direction r.tmin r.tmax j →
        (intersect_trimesh ctx fns r default_hitinfo).1.distance ≤
          triT ctx r.origin r.direction j) ∧
    ((intersect_trimesh ctx fns r default_hitinfo).2.2 = false →
      (intersect_trimesh ctx fns r default_hitinfo).1 = default_hitinfo ∧
      ∀ j, ¬ GV ctx r.origin r.direction r.tmin r.tmax j) := by
  unfold wellFormed at hwf
  rw [Bool.and_eq_true] at hwf
  have hcov : ∀ j, j < ctx.meshFaces.length → covered ctx j 20 0 [] = true := by
    intro j hj
    have hall := hwf.2
    rw [List.all_eq_true] at hall
    exact hall j (List.mem_range.mpr hj)
  unfold intersect_trimesh
  refine trimeshGo_correct ctx fns r.origin r.direction r.tmin r.tmax hd
    536870912 0 0 0 (fun _ => (0, 0)) (fun _ => (0, 0)) r default_hitinfo
    ⟨rfl, rfl, rfl, by norm_num, hwf.1, ?_, ?_, ?_, ?_⟩ ?_
  · intro k hk
    exact absurd hk (Nat.not_lt_zero k)
  · intro k hk
    exact absurd hk (Nat.not_lt_zero k)
  · intro k k' h1 h2
    exact absurd h2 (Nat.not_lt_zero k)
  · refine ⟨[], fun _ => [], IChar_nil _ _ _ _, ?_, ?_⟩
    · intro k hk
      exact absurd hk (Nat.not_lt_zero k)
    · intro j hgv
      exact Or.inl ⟨hcov j hgv.1, hgv.2.2.1, hgv.2.2.2⟩
  · unfold nu
    simp only [Finset.sum_range_zero]
    norm_num

end W8

namespace W8

/-- C1 (amended): against the week06 scan as literally written the claim
fails on two counts (the scan's `1e-4` triangle epsilon differs from the
traversal's `1e-8`, and the traversal's `1e-8` split-denominator clamp sends
near-axis-parallel rays to the wrong subtree); both are exhibited by
`C1_counterexample`.  The amended property proved here: for every ray whose
direction components all have magnitude at least `1e-8` and every mesh with
a well-formed BSP tree over it (depth within `MAX_LEVEL` and every triangle
listed in a leaf whose cell strictly contains it), `intersect_trimesh`
agrees exactly with a brute-force linear scan over all triangles using the
week08 triangle test: the found flags coincide, and on a hit the recorded
nearest distances are equal. -/
theorem C1_bsp_refines_linear_scan (ctx : Ctx) (fns : Fns) (r : Ray)
    (hwf : wellFormed ctx = true) (hd : dirEps r.direction) :
    (intersect_trimesh ctx fns r default_hitinfo).2.2 =
      (linear_scan ctx fns r default_hitinfo).2.2 ∧
    ((intersect_trimesh ctx fns r default_hitinfo).2.2 = true →
      (intersect_trimesh ctx fns r default_hitinfo).1.distance =
        (linear_scan ctx fns r default_hitinfo).1.distance) := by
  obtain ⟨bspT, bspF⟩ := intersect_trimesh_correct ctx fns r hwf hd
  obtain ⟨scanF, scanT⟩ := linear_scan_spec ctx fns r default_hitinfo
  by_cases hb : (intersect_trimesh ctx fns r default_hitinfo).2.2 = true
  · obtain ⟨⟨j, hgv, hval⟩, hminB⟩ := bspT hb
    have hs : (linear_scan ctx fns r default_hitinfo).2.2 = true := by
      by_contra hs0
      rw [Bool.not_eq_true] at hs0
      exact (scanF hs0).2 j hgv
    refine ⟨by rw [hb, hs], ?_⟩
    intro _
    obtain ⟨⟨j2, hgv2, hval2⟩, hminS⟩ := scanT hs
    have h1 := hminB j2 hgv2
    have h2 := hminS j hgv
    rw [hval2] at h1
    rw [hval] at h2
    exact le_antisymm h1 h2
  · rw [Bool.not_eq_true] at hb
    obtain ⟨_, hnone⟩ := bspF hb
    have hs : (linear_scan ctx fns r default_hitinfo).2.2 = false := by
      by_contra hs0
      rw [Bool.not_eq_false] at hs0
      obtain ⟨⟨j, hgv, _⟩, _⟩ := scanT hs0
      exact hnone j hgv
    refine ⟨by rw [hb, hs], ?_⟩
    intro hcon
    rw [hb] at hcon
    exact Bool.noConfusion hcon

end W8

/-- One-leaf BSP context for the C1 witness: a single triangle on the plane
`x + y + z = 3`, listed in the root leaf (`7 = 1 * 4 + 3`: one id, leaf
marker). -/
def ctxC1w : W8.Ctx :=
  ⟨[⟨⟨3, 0, 0⟩, ⟨1, 1, 1⟩⟩, ⟨⟨0, 3, 0⟩, ⟨1, 1, 1⟩⟩, ⟨⟨0, 0, 3⟩, ⟨1, 1, 1⟩⟩],
    [(0, 1, 2, 0)], [], 0, ⟨3, 3, 3⟩, [0], [(7, 0, 0, 0)], [], [], 0⟩

/-- Diagonal ray for the C1 witness, hitting the triangle at `t = 1`. -/
def rayC1w : Ray := ⟨⟨0, 0, 0⟩, ⟨1, 1, 1⟩, 1 / 100, 100⟩

instance (D : Vec3) : Decidable (dirEps D) := by
  unfold dirEps
  infer_instance

attribute [local semireducible] Rat.add Rat.mul Rat.inv Rat.sub in
/-- Witness for C1: the one-leaf tree is well formed, the diagonal ray
satisfies the direction bound, and the amended theorem applies. -/
theorem C1_witness :
    W8.wellFormed ctxC1w = true ∧ dirEps rayC1w.direction ∧
    ((W8.intersect_trimesh ctxC1w fns0 rayC1w W8.default_hitinfo).2.2 =
        (W8.linear_scan ctxC1w fns0 rayC1w W8.default_hitinfo).2.2 ∧
      ((W8.intersect_trimesh ctxC1w fns0 rayC1w W8.default_hitinfo).2.2 = true →
        (W8.intersect_trimesh ctxC1w fns0 rayC1w W8.default_hitinfo).1.distance =
          (W8.linear_scan ctxC1w fns0 rayC1w W8.default_hitinfo).1.distance)) :=
  ⟨by decide, by decide,
    W8.C1_bsp_refines_linear_scan ctxC1w fns0 rayC1w (by decide) (by decide)⟩
